import Mathlib

/-!
Verification of the NexLedger bank reconciliation and import subsystem.

This file is a shallow embedding of the reconciliation core of the
NexLedger accounting application:

* the amount / date normalizers of `pro/bank_feeds_tab.py`
  (`BankFeedImportThread.parse_amount`, `parse_date`, `parse_date_ofx`),
* the statement parsers (`parse_csv`, `parse_pdf`, `parse_ofx`) of the same
  file and their worker-boundary error handling (`BankFeedImportThread.run`),
* the duplicate filter `is_duplicate_transaction` of `shared/db.py` and the
  persistence loop `BankFeedsTab.save_transactions`,
* the fuzzy matcher `BankReconciliationTab.auto_match` of
  `pro/banking_suite.py` together with the `difflib.SequenceMatcher`
  similarity it relies on,
* the reconciliation state machine: statement/ledger mutations of
  `pro/banking_suite.py`, `pro/cash_book_tab.py`
  (`match_selected_statement_lines`, `undo_last_match`, `push_undo`,
  `pop_undo`) and `pro/reconcile_dialog.py` (`on_unreconcile_selected`).

Python machine floats are modelled as exact rationals (`ℚ`); SQLite rows
are modelled as Lean structures and tables as lists; character data uses
`List Char` / `String`.  All definitions are executable.
-/

namespace NexLedger

/-! ## Python string primitives -/

/-- Characters removed by Python's `str.strip()` (ASCII whitespace). -/
def isPySpace (c : Char) : Bool :=
  c = ' ' || c = '\t' || c = '\n' || c = '\r' || c = '\x0b' || c = '\x0c'

/-- Python `str.strip()` on a character list. -/
def pyStrip (s : List Char) : List Char :=
  ((s.dropWhile isPySpace).reverse.dropWhile isPySpace).reverse

/-- Numeric value of an ASCII digit character. -/
def dv (c : Char) : Nat := c.toNat - 48

/-- Value of a list of ASCII digit characters read in base 10. -/
def digitsToNat (l : List Char) : Nat :=
  l.foldl (fun a c => 10 * a + dv c) 0

/-- ASCII lower-casing of a string, as SQLite's `LOWER` and (on ASCII
input) Python's `str.lower` perform. -/
def strLower (s : String) : String :=
  ⟨s.data.map Char.toLower⟩

/-! ## Kernel-reducible rational arithmetic

The standard `ℚ` operations of Mathlib are irreducible, so the embedding
computes through `mkRat` and the helpers below; the bridge lemmas
`qAdd_eq`, `qSub_eq` and `qMul_eq` (further down) identify them with the
ordinary field operations, which the specification theorems use. -/

/-- Rational addition through `mkRat` (equal to `a + b`). -/
def qAdd (a b : ℚ) : ℚ := mkRat (a.num * b.den + b.num * a.den) (a.den * b.den)

/-- Rational subtraction through `mkRat` (equal to `a - b`). -/
def qSub (a b : ℚ) : ℚ := mkRat (a.num * b.den - b.num * a.den) (a.den * b.den)

/-- Rational multiplication through `mkRat` (equal to `a * b`). -/
def qMul (a b : ℚ) : ℚ := mkRat (a.num * b.num) (a.den * b.den)

/-! ## Python `float()` on cleaned numeric strings

Model of CPython's `float(str)` for the strings this code base feeds it:
optional surrounding whitespace, an optional sign, a decimal mantissa
(digits with an optional dot; at least one digit overall), and an optional
exponent part.  (`inf`/`nan` spellings and `_` digit separators cannot
occur in the inputs produced by the importers and are not modelled.) -/

/-- Signed mantissa value: `ip` integer digits, `fp` fraction digits. -/
def mantVal (neg : Bool) (ip fp : List Char) : ℚ :=
  if neg then
    -(mkRat (digitsToNat ip * 10 ^ fp.length + digitsToNat fp) (10 ^ fp.length))
  else mkRat (digitsToNat ip * 10 ^ fp.length + digitsToNat fp) (10 ^ fp.length)

/-- Exponent part `[+-]?digits+`, which must consume the rest. -/
def pyFloatExp (mant : ℚ) (r : List Char) : Option ℚ :=
  let eneg : Bool := r.head? = some '-'
  let r4 := if r.head? = some '+' || r.head? = some '-' then r.tail else r
  let ed := r4.takeWhile Char.isDigit
  if ed.isEmpty || !(r4.dropWhile Char.isDigit).isEmpty then none
  else if eneg then some (qMul mant (mkRat 1 (10 ^ digitsToNat ed)))
  else some (qMul mant (mkRat (10 ^ digitsToNat ed) 1))

/-- Mantissa check and optional exponent: at least one digit overall,
then end of input, or an `e`/`E` exponent suffix. -/
def pyFloatFin (neg : Bool) (ip fp r2 : List Char) : Option ℚ :=
  if ip.isEmpty && fp.isEmpty then none
  else if r2.isEmpty then some (mantVal neg ip fp)
  else if r2.head? = some 'e' || r2.head? = some 'E' then
    pyFloatExp (mantVal neg ip fp) r2.tail
  else none

/-- Fraction part: a dot followed by further digits (both optional). -/
def pyFloatFrac (neg : Bool) (ip r1 : List Char) : Option ℚ :=
  if r1.head? = some '.' then
    pyFloatFin neg ip (r1.tail.takeWhile Char.isDigit) (r1.tail.dropWhile Char.isDigit)
  else pyFloatFin neg ip [] r1

/-- Integer digits of the mantissa. -/
def pyFloatCore (neg : Bool) (s1 : List Char) : Option ℚ :=
  pyFloatFrac neg (s1.takeWhile Char.isDigit) (s1.dropWhile Char.isDigit)

/-- Mantissa and exponent extraction for `float()`; returns the parsed
value, or `none` when CPython would raise `ValueError`. -/
def pyFloat? (s0 : List Char) : Option ℚ :=
  let s := pyStrip s0
  if s.head? = some '+' || s.head? = some '-' then
    pyFloatCore (s.head? = some '-') s.tail
  else pyFloatCore false s

/-- Python `int(str)`: optional surrounding whitespace, optional sign,
at least one decimal digit, nothing else. -/
def pyInt? (s0 : List Char) : Option ℤ :=
  let s := pyStrip s0
  let neg : Bool := s.head? = some '-'
  let s1 := if s.head? = some '+' || s.head? = some '-' then s.tail else s
  let ds := s1.takeWhile Char.isDigit
  if ds.isEmpty || !(s1.dropWhile Char.isDigit).isEmpty then none
  else some (if neg then -(digitsToNat ds : ℤ) else (digitsToNat ds : ℤ))

/-! ## Amount normalization — `BankFeedImportThread.parse_amount`

Source (`pro/bank_feeds_tab.py` lines 263–280): strip; remove every
`' '`; if both `.` and `,` occur, drop every comma; else if only `,`
occurs, turn each comma into a dot; strip every character other than
ASCII digits, `.` and `-` (the regex `[^\d\.-]`); `float(...)`, with any
failure silently coerced to `0.0`. -/

/-- Cleaning pipeline of `parse_amount` applied to the stripped text. -/
def cleanAmountChars (s : List Char) : List Char :=
  let sClean := s.filter (fun c => c ≠ ' ')
  let sClean :=
    if sClean.contains '.' && sClean.contains ',' then
      sClean.filter (fun c => c ≠ ',')
    else if sClean.contains ',' && !sClean.contains '.' then
      sClean.map (fun c => if c = ',' then '.' else c)
    else sClean
  sClean.filter (fun c => c.isDigit || c = '.' || c = '-')

/-- `BankFeedImportThread.parse_amount`.  (A `None` argument also yields
`0.0` in the source; callers below only pass strings.) -/
def parse_amount (amount_str : String) : ℚ :=
  let s := pyStrip amount_str.data
  if s.isEmpty then 0
  else
    match pyFloat? (cleanAmountChars s) with
    | some v => v
    | none => 0

/-! ## Date normalization — `BankFeedImportThread.parse_date`

Source (`pro/bank_feeds_tab.py` lines 229–248).  `datetime.strptime` is
modelled faithfully: each format compiles to a regex whose alternatives
are tried depth-first in order, the first (prefix) match is taken, the
whole input must have been consumed, and the resulting `datetime`
construction validates the calendar date. -/

/-- Calendar date `(year, month, day)`. -/
structure Ymd where
  y : Nat
  m : Nat
  d : Nat
deriving DecidableEq, Repr

/-- Alternatives (in regex order) of the `%d` / `%m` strptime directives:
the two-digit alternations covering `01..hi` come first, then the
single-digit `[1-9]`.  `hi` is 31 for `%d` and 12 for `%m`. -/
def numAlts (hi : Nat) : List Char → List (Nat × List Char)
  | a :: b :: r =>
      (if a.isDigit && b.isDigit && decide (1 ≤ 10 * dv a + dv b) &&
          decide (10 * dv a + dv b ≤ hi) then
        [(10 * dv a + dv b, r)]
      else []) ++
      (if a.isDigit && decide (1 ≤ dv a) && decide (dv a ≤ 9) then [(dv a, b :: r)] else [])
  | [a] => if a.isDigit && decide (1 ≤ dv a) && decide (dv a ≤ 9) then [(dv a, [])] else []
  | [] => []

/-- The `%Y` directive: exactly four digits. -/
def year4 : List Char → Option (Nat × List Char)
  | a :: b :: c :: d :: r =>
      if a.isDigit && b.isDigit && c.isDigit && d.isDigit then
        some (digitsToNat [a, b, c, d], r)
      else none
  | _ => none

/-- Expect a literal separator character. -/
def litSep (sep : Char) : List Char → Option (List Char)
  | c :: r => if c = sep then some r else none
  | [] => none

/-- Format `%d SEP %m SEP %Y` (first regex match, leftover input allowed). -/
def matchDMYsep (sep : Char) (s : List Char) : Option (Ymd × List Char) :=
  (numAlts 31 s).findSome? fun (d, r1) =>
    (litSep sep r1).bind fun r2 =>
      (numAlts 12 r2).findSome? fun (m, r3) =>
        (litSep sep r3).bind fun r4 =>
          (year4 r4).map fun (y, r5) => (⟨y, m, d⟩, r5)

/-- Format `%Y SEP %m SEP %d`. -/
def matchYMDsep (sep : Char) (s : List Char) : Option (Ymd × List Char) :=
  (year4 s).bind fun (y, r1) =>
    (litSep sep r1).bind fun r2 =>
      (numAlts 12 r2).findSome? fun (m, r3) =>
        (litSep sep r3).bind fun r4 =>
          (numAlts 31 r4).findSome? fun (d, r5) => some (⟨y, m, d⟩, r5)

/-- Format `%Y%m%d`. -/
def matchYmd8 (s : List Char) : Option (Ymd × List Char) :=
  (year4 s).bind fun (y, r1) =>
    (numAlts 12 r1).findSome? fun (m, r2) =>
      (numAlts 31 r2).findSome? fun (d, r3) => some (⟨y, m, d⟩, r3)

/-- Format `%d%m%Y`. -/
def matchDmy8 (s : List Char) : Option (Ymd × List Char) :=
  (numAlts 31 s).findSome? fun (d, r1) =>
    (numAlts 12 r1).findSome? fun (m, r2) =>
      (year4 r2).map fun (y, r3) => (⟨y, m, d⟩, r3)

/-- Format `%m/%d/%Y`. -/
def matchMDY (s : List Char) : Option (Ymd × List Char) :=
  (numAlts 12 s).findSome? fun (m, r1) =>
    (litSep '/' r1).bind fun r2 =>
      (numAlts 31 r2).findSome? fun (d, r3) =>
        (litSep '/' r3).bind fun r4 =>
          (year4 r4).map fun (y, r5) => (⟨y, m, d⟩, r5)

/-- Gregorian leap year. -/
def isLeap (y : Nat) : Bool :=
  y % 4 = 0 && (y % 100 ≠ 0 || y % 400 = 0)

/-- Number of days of a month. -/
def daysInMonth (y m : Nat) : Nat :=
  if m = 2 then (if isLeap y then 29 else 28)
  else if m = 4 || m = 6 || m = 9 || m = 11 then 30
  else 31

/-- Validity check performed by the `datetime(y, m, d)` constructor
(month/day ranges are partly guaranteed by the directive regexes). -/
def validYmd (x : Ymd) : Bool :=
  1 ≤ x.y && x.y ≤ 9999 && 1 ≤ x.m && x.m ≤ 12 && 1 ≤ x.d && x.d ≤ daysInMonth x.y x.m

/-- One `datetime.strptime(s, fmt)` attempt: regex match, full-consumption
check, calendar validation. -/
def strptime? (matcher : List Char → Option (Ymd × List Char))
    (s : List Char) : Option Ymd :=
  match matcher s with
  | some (x, rest) => if rest.isEmpty && validYmd x then some x else none
  | none => none

/-- The ordered format list of `parse_date`:
`%d/%m/%Y`, `%Y-%m-%d`, `%d-%m-%Y`, `%Y%m%d`, `%d%m%Y`, `%d.%m.%Y`,
`%m/%d/%Y`. -/
def dateFormats : List (List Char → Option (Ymd × List Char)) :=
  [matchDMYsep '/', matchYMDsep '-', matchDMYsep '-', matchYmd8,
   matchDmy8, matchDMYsep '.', matchMDY]

/-- First format of the list that parses the string. -/
def tryFormats (s : List Char) : Option Ymd :=
  dateFormats.findSome? fun f => strptime? f s

/-- Zero-padded decimal rendering, width 2. -/
def pad2 (n : Nat) : List Char :=
  if n < 10 then ['0', Char.ofNat (48 + n)] else (Nat.toDigits 10 n)

/-- Zero-padded decimal rendering, width 4 (enough for `%Y` of valid years). -/
def pad4 (n : Nat) : List Char :=
  let ds := Nat.toDigits 10 n
  List.replicate (4 - ds.length) '0' ++ ds

/-- `datetime.strftime('%Y-%m-%d')`. -/
def fmtIso (x : Ymd) : String :=
  ⟨pad4 x.y ++ '-' :: pad2 x.m ++ '-' :: pad2 x.d⟩

/-- Leftmost run of eight consecutive ASCII digits (`re.search(r'(\d{8})')`). -/
def find8 : List Char → Option (List Char)
  | [] => none
  | c :: r =>
      let cand := (c :: r).take 8
      if cand.length = 8 && cand.all Char.isDigit then some cand
      else find8 r

/-- `BankFeedImportThread.parse_date`.  `today` stands for
`datetime.now()`, used as silent default for unparseable input. -/
def parse_date (today : Ymd) (date_str : String) : String :=
  if date_str = "" then fmtIso today
  else
    let s := pyStrip date_str.data
    match tryFormats s with
    | some x => fmtIso x
    | none =>
        match find8 s with
        | some ds =>
            match strptime? matchYmd8 ds with
            | some x => fmtIso x
            | none => fmtIso today
        | none => fmtIso today

/-! ## Duplicate filter and import persistence -/

/-- A row of the `transactions` table, which also is the shape of the
dictionaries produced by the three statement parsers (`save_transactions`
inserts exactly the fields `date, description, amount, type`). -/
structure Txn where
  date : String
  description : String
  amount : ℚ
  ttype : String
deriving DecidableEq, Repr

/-- `shared/db.py` `is_duplicate_transaction` (lines 647–657): `SELECT 1
FROM transactions WHERE date=? AND LOWER(description)=LOWER(?) LIMIT 1`.
The table is `db`; the amount column is never consulted.  (When no
company database is open the helper returns `False`; that configuration
is outside this model.) -/
def is_duplicate_transaction (db : List Txn) (date description : String) : Bool :=
  db.any fun r => r.date = date && strLower r.description = strLower description

/-- `BankFeedsTab.save_transactions` (lines 375–396): for each incoming
transaction run the duplicate check, skip duplicates, insert the rest,
commit once at the end.  The duplicate helper opens its own connection,
so it sees only the rows committed before the batch began (`db`), never
the pending inserts of the current batch. -/
def save_transactions (db : List Txn) (txns : List Txn) : List Txn :=
  db ++ txns.filter fun t => !is_duplicate_transaction db t.date t.description

/-! ## `difflib.SequenceMatcher` similarity — `similarity` helper

Source (`pro/banking_suite.py` lines 46–50):
`difflib.SequenceMatcher(None, a.lower(), b.lower()).ratio()`, returning
`0.0` when either string is empty.  The matcher below reproduces
difflib's `find_longest_match` / `get_matching_blocks` for inputs without
junk (autojunk only activates on strings of length ≥ 200, far beyond the
narrations involved). -/

/-- Lookup in the `j2len` association list, default `0`. -/
def j2lenGet (m : List (Nat × Nat)) (j : Nat) : Nat :=
  ((m.find? fun p => p.1 = j).map Prod.snd).getD 0

/-- difflib `find_longest_match` on `A[alo:ahi]` × `B[blo:bhi]`: longest
matching block, earliest in `A` then in `B` among ties.  Returns
`(besti, bestj, bestsize)`. -/
def flm (A B : List Char) (alo ahi blo bhi : Nat) : Nat × Nat × Nat :=
  let step := fun (acc : List (Nat × Nat) × Nat × Nat × Nat) (i : Nat) =>
    let inner := (List.range' blo (bhi - blo)).foldl
      (fun (acc2 : List (Nat × Nat) × Nat × Nat × Nat) (j : Nat) =>
        if B.get? j = A.get? i then
          let k := (if j = 0 then 0 else j2lenGet acc.1 (j - 1)) + 1
          if k > acc2.2.2.2 then ((j, k) :: acc2.1, i + 1 - k, j + 1 - k, k)
          else ((j, k) :: acc2.1, acc2.2)
        else acc2)
      ([], acc.2)
    inner
  let res := (List.range' alo (ahi - alo)).foldl step ([], alo, blo, 0)
  res.2

/-- Total size of difflib's matching blocks on the given ranges, by the
recursive divide-at-the-longest-block scheme of `get_matching_blocks`
(fuel-structured; any fuel above the range size is exact). -/
def matchTotal (A B : List Char) : Nat → Nat → Nat → Nat → Nat → Nat
  | 0, _, _, _, _ => 0
  | fuel + 1, alo, ahi, blo, bhi =>
      if alo < ahi && blo < bhi then
        let (i, j, k) := flm A B alo ahi blo bhi
        if k = 0 then 0
        else
          matchTotal A B fuel alo i blo j + k +
          matchTotal A B fuel (i + k) ahi (j + k) bhi
      else 0

/-- difflib `ratio()`: `2*M / (len(a) + len(b))` (callers exclude the
empty/empty case). -/
def seqScore (A B : List Char) : ℚ :=
  mkRat (2 * matchTotal A B (A.length + B.length + 1) 0 A.length 0 B.length)
    (A.length + B.length)

/-- `similarity` of `pro/banking_suite.py`: `0.0` for empty (falsy)
arguments, else the case-folded `SequenceMatcher` ratio. -/
def similarity (a b : String) : ℚ :=
  if a = "" || b = "" then 0
  else seqScore (a.data.map Char.toLower) (b.data.map Char.toLower)

/-! ## ISO dates and day differences

`auto_match` compares dates via
`(datetime.fromisoformat(s).date() - datetime.fromisoformat(c).date()).days`,
falling back to `999` when either parse raises.  The stored dates are
`YYYY-MM-DD` strings. -/

/-- `datetime.fromisoformat` on a plain `YYYY-MM-DD` date string
(other `fromisoformat` shapes do not occur in this database). -/
def isoParse? (s : String) : Option Ymd :=
  match s.data with
  | [y1, y2, y3, y4, '-', m1, m2, '-', d1, d2] =>
      if [y1, y2, y3, y4, m1, m2, d1, d2].all Char.isDigit then
        let x : Ymd := ⟨digitsToNat [y1, y2, y3, y4], digitsToNat [m1, m2],
                        digitsToNat [d1, d2]⟩
        if validYmd x then some x else none
      else none
  | _ => none

/-- Day number of a calendar date (proleptic Gregorian, days-from-civil
algorithm); differences of day numbers are differences in days. -/
def rataDie (x : Ymd) : ℤ :=
  let y := if x.m ≤ 2 then x.y - 1 else x.y
  let era := y / 400
  let yoe := y % 400
  let mp := (x.m + 9) % 12
  let doy := (153 * mp + 2) / 5 + (x.d - 1)
  let doe := yoe * 365 + yoe / 4 - yoe / 100 + doy
  (era * 146097 + doe : ℤ) - 719468

/-- Absolute day difference of two stored date strings; `999` when either
is not a parseable ISO date (the `except` branch of `auto_match`). -/
def dateDiffDays (s c : String) : Nat :=
  match isoParse? s, isoParse? c with
  | some a, some b => (rataDie a - rataDie b).natAbs
  | _, _ => 999

/-! ## The matcher — `BankReconciliationTab.auto_match`

Source (`pro/banking_suite.py` lines 411–446). -/

/-- A `bank_statement_lines` row (fields used by the matcher and the
reconciliation operations). -/
structure StmtLine where
  id : Nat
  fitid : String
  tx_date : String
  description : Option String
  amount : Option ℚ
  matched_entry_id : Option Nat
  cleared : Bool
deriving DecidableEq, Repr

/-- A `cash_book` row (a.k.a. `LedgerEntry`). -/
structure CashBookEntry where
  id : Nat
  date : String
  account : String
  narration : Option String
  reference : String
  debit : Option ℚ
  credit : Option ℚ
  reconciled : Bool
deriving DecidableEq, Repr

/-- Net ledger amount `float(c.get('debit') or 0) - float(c.get('credit') or 0)`. -/
def cbNet (c : CashBookEntry) : ℚ := qSub (c.debit.getD 0) (c.credit.getD 0)

/-- Candidate eligibility of the matcher: amount within one cent and at
most three days apart (the two `continue` guards). -/
def eligible (s : StmtLine) (c : CashBookEntry) : Bool :=
  |qSub (cbNet c) (s.amount.getD 0)| ≤ mkRat 1 100 &&
  dateDiffDays s.tx_date c.date ≤ 3

/-- Similarity of a statement line's description and an entry's narration
(`s.get('description') or ''` vs `c.get('narration') or ''`). -/
def simSC (s : StmtLine) (c : CashBookEntry) : ℚ :=
  similarity (s.description.getD "") (c.narration.getD "")

/-- One iteration of the inner loop of `auto_match`: an eligible
candidate displaces the running best only with strictly greater
similarity. -/
def bestStep (s : StmtLine) (acc : Option CashBookEntry × ℚ) (c : CashBookEntry) :
    Option CashBookEntry × ℚ :=
  if eligible s c then
    if simSC s c > acc.2 then (some c, simSC s c) else acc
  else acc

/-- Inner loop of `auto_match`: best eligible candidate (running best
initially `None` with score `0`). -/
def bestFor (s : StmtLine) (cbs : List CashBookEntry) : Option CashBookEntry × ℚ :=
  cbs.foldl (bestStep s) (none, 0)

/-- `auto_match` proposal list: one `(statement_id, cashbook_id, score)`
per statement line whose best candidate scores strictly above `0.4`. -/
def auto_match (stmts : List StmtLine) (cbs : List CashBookEntry) :
    List (Nat × Nat × ℚ) :=
  stmts.filterMap fun s =>
    match bestFor s cbs with
    | (some c, score) => if score > mkRat 2 5 then some (s.id, c.id, score) else none
    | (none, _) => none

/-! ## Undo payloads

`match_selected_statement_lines` pushes the undo record
`('match', f'{lid}|||{fitid}|||{amt}')`; `undo_last_match` recovers the
fields with `payload.split('|||')`, `int(parts[0])` and
`float(parts[2])`.  Integer rendering is exact; for the float `f'{amt}'`
we render a decimal approximation (`ratChars`) — the parsed-back amount
is never used by the code, only the parse has to succeed, which holds for
any CPython float rendering as it does for ours. -/

/-- Decimal digits of `n`, most significant first (fuel-structured; any
fuel `≥ n` is exact). -/
def natCharsGo : Nat → Nat → List Char → List Char
  | 0, n, acc => Char.ofNat (48 + n % 10) :: acc
  | fuel + 1, n, acc =>
      if n < 10 then Char.ofNat (48 + n) :: acc
      else natCharsGo fuel (n / 10) (Char.ofNat (48 + n % 10) :: acc)

/-- Python `str(n)` / `f'{n}'` for a natural number. -/
def natChars (n : Nat) : List Char := natCharsGo n n []

/-- Decimal rendering of a rational: sign, integer part, dot, six
(truncated) fraction digits. -/
def ratChars (q : ℚ) : List Char :=
  (if q.num < 0 then ['-'] else []) ++
    natChars (q.num.natAbs / q.den) ++
    '.' :: natChars (q.num.natAbs % q.den * 1000000 / q.den)

/-- The payload string pushed by `match_selected_statement_lines`. -/
def matchPayload (lid : Nat) (fitid : String) (amt : ℚ) : String :=
  ⟨natChars lid ++ '|' :: '|' :: '|' :: (fitid.data ++ '|' :: '|' :: '|' :: ratChars amt)⟩

/-- Text before the first `'|||'` and, when one occurs, the remainder
after it (the step function of `str.split('|||')`). -/
def findSep3 : List Char → List Char × Option (List Char)
  | [] => ([], none)
  | c :: r =>
      if c = '|' then
        match r with
        | '|' :: '|' :: rest => ([], some rest)
        | _ => (c :: (findSep3 r).1, (findSep3 r).2)
      else (c :: (findSep3 r).1, (findSep3 r).2)

/-- First three fields of `payload.split('|||')`; `none` when fewer than
three exist (the `IndexError` of `parts[2]`, caught by the handler). -/
def splitPayload3 (p : List Char) : Option (List Char × List Char × List Char) :=
  ((findSep3 p).2).bind fun r1 =>
    ((findSep3 r1).2).bind fun r2 =>
      some ((findSep3 p).1, (findSep3 r1).1, (findSep3 r2).1)

/-- Decoding of a `'match'` payload: `int(parts[0])`, `parts[1]`,
`float(parts[2])`; `none` when any step raises (then the `except` branch
leaves the database unchanged beyond the already-committed pop). -/
def decodeMatchPayload (p : String) : Option (ℤ × List Char × ℚ) :=
  (splitPayload3 p.data).bind fun q =>
    (pyInt? q.1).bind fun lid =>
      (pyFloat? q.2.2).map fun amt => (lid, q.2.1, amt)

/-! ## The reconciliation database state

Tables relevant to reconciliation (schema in `shared/db.py` lines
471–516 and the `bank_undo` table of `pro/cash_book_tab.py` lines
100–107), with the `AUTOINCREMENT` id counters made explicit. -/

/-- A `bank_undo` row. -/
structure UndoRec where
  id : Nat
  action : String
  payload : String
deriving DecidableEq, Repr

/-- A `reconciliation_matches` row (the audit `MatchRecord`). -/
structure MatchRec where
  statement_line_id : Nat
  cashbook_entry_id : Nat
  match_score : ℚ
deriving DecidableEq, Repr

/-- The reconciliation-relevant database state. -/
structure DbState where
  cash_book : List CashBookEntry
  bank_statement_lines : List StmtLine
  reconciliation_matches : List MatchRec
  bank_undo : List UndoRec
  nextCbId : Nat
  nextStmtId : Nat
  nextUndoId : Nat
deriving DecidableEq, Repr

/-- Freshly initialized database (empty tables, AUTOINCREMENT at 1). -/
def initState : DbState := ⟨[], [], [], [], 1, 1, 1⟩

/-- `UPDATE cash_book SET reconciled=b WHERE id=cid`. -/
def setReconciled (b : Bool) (cid : Nat) (cb : List CashBookEntry) :
    List CashBookEntry :=
  cb.map fun e => if e.id = cid then { e with reconciled := b } else e

/-- `UPDATE bank_statement_lines SET matched_entry_id=mid WHERE id=sid`. -/
def setMatched (mid sid : Nat) (ls : List StmtLine) : List StmtLine :=
  ls.map fun l => if l.id = sid then { l with matched_entry_id := some mid } else l

/-- One iteration of the apply-matches loop of `auto_match` /
`confirm_matches`: link the statement line, flip `reconciled`, append an
audit row. -/
def applyMatch (st : DbState) (p : Nat × Nat × ℚ) : DbState :=
  { st with
    bank_statement_lines := setMatched p.2.1 p.1 st.bank_statement_lines
    cash_book := setReconciled true p.2.1 st.cash_book
    reconciliation_matches := st.reconciliation_matches ++ [⟨p.1, p.2.1, p.2.2⟩] }

/-- `SELECT ... FROM bank_statement_lines WHERE matched_entry_id IS NULL`. -/
def unmatchedLines (st : DbState) : List StmtLine :=
  st.bank_statement_lines.filter fun l => l.matched_entry_id.isNone

/-- `SELECT ... FROM cash_book WHERE reconciled = 0`. -/
def unreconciledEntries (st : DbState) : List CashBookEntry :=
  st.cash_book.filter fun e => !e.reconciled

/-- `BankReconciliationTab.auto_match` with the user confirming: compute
the proposals over the unmatched/unreconciled rows and apply them all. -/
def autoMatchConfirm (st : DbState) : DbState :=
  (auto_match (unmatchedLines st) (unreconciledEntries st)).foldl applyMatch st

/-- `BankReconciliationTab.confirm_matches` (lines 467–488): re-assert
every already-linked pair with score `1.0`. -/
def confirmMatches (st : DbState) : DbState :=
  (st.bank_statement_lines.filterMap fun l =>
    l.matched_entry_id.map fun c => (l.id, c, (1 : ℚ))).foldl applyMatch st

/-- `SELECT id,debit,credit FROM cash_book WHERE date=? AND narration=?
LIMIT 1` (`narration = ?` never matches a NULL narration). -/
def findCbByDateNarr (st : DbState) (rdate narr : String) : Option CashBookEntry :=
  st.cash_book.find? fun e => e.date = rdate && e.narration == some narr

/-- `push_undo` of `pro/cash_book_tab.py` (lines 124–127). -/
def push_undo (st : DbState) (action payload : String) : DbState :=
  { st with
    bank_undo := st.bank_undo ++ [⟨st.nextUndoId, action, payload⟩]
    nextUndoId := st.nextUndoId + 1 }

/-- `CashBookTab.match_selected_statement_lines` (lines 636–661): look up
the ledger line by date and narration; if absent, do nothing; else insert
a cleared statement line linked to it, set `reconciled = 1`, and push a
`'match'` undo record. -/
def match_selected_statement_lines (st : DbState) (fitid tx_date desc : String)
    (amt : ℚ) (rdate narr : String) : DbState :=
  match findCbByDateNarr st rdate narr with
  | none => st
  | some e =>
      push_undo
        { st with
          bank_statement_lines := st.bank_statement_lines ++
            [⟨st.nextStmtId, fitid, tx_date, some desc, some amt, some e.id, true⟩]
          nextStmtId := st.nextStmtId + 1
          cash_book := setReconciled true e.id st.cash_book }
        "match" (matchPayload e.id fitid amt)

/-- Scan step keeping the record of greatest id seen so far. -/
def maxStep (acc : Option UndoRec) (r : UndoRec) : Option UndoRec :=
  match acc with
  | none => some r
  | some m => if r.id > m.id then some r else some m

/-- `SELECT id, action, payload FROM bank_undo ORDER BY id DESC LIMIT 1`:
the row with the greatest id (ids are unique by AUTOINCREMENT). -/
def maxUndo? (l : List UndoRec) : Option UndoRec :=
  l.foldl maxStep none

/-- `pop_undo` of `pro/cash_book_tab.py` (lines 129–137): return the most
recent undo record and delete it (`DELETE FROM bank_undo WHERE id=?`). -/
def pop_undo (st : DbState) : Option (String × String) × DbState :=
  match maxUndo? st.bank_undo with
  | none => (none, st)
  | some r =>
      (some (r.action, r.payload),
       { st with bank_undo := st.bank_undo.filter fun x => x.id ≠ r.id })

/-- `CashBookTab.undo_last_match` (lines 663–680): pop; if the record is
a `'match'`, decode its payload, delete every statement line matched to
that ledger id and clear the entry's `reconciled` flag; any other action
is announced as not undoable here (the record stays consumed); a payload
the decode raises on leaves everything but the pop unchanged. -/
def undo_last_match (st : DbState) : DbState :=
  match pop_undo st with
  | (none, st1) => st1
  | (some (action, payload), st1) =>
      if action = "match" then
        match decodeMatchPayload payload with
        | some (lid, _, _) =>
            { st1 with
              bank_statement_lines := st1.bank_statement_lines.filter fun l =>
                !((l.matched_entry_id.map fun n => (n : ℤ)) == some lid)
              cash_book := st1.cash_book.map fun e =>
                if (e.id : ℤ) = lid then { e with reconciled := false } else e }
        | none => st1
      else st1

/-- `ReconcileDialog.on_reconcile_selected` (lines 155–187):
`UPDATE cash_book SET reconciled = 1` for the selected ids. -/
def on_reconcile_selected (st : DbState) (ids : List Nat) : DbState :=
  { st with
    cash_book := st.cash_book.map fun e =>
      if ids.contains e.id then { e with reconciled := true } else e }

/-- `ReconcileDialog.on_unreconcile_selected` (lines 189–220).  The
statement executed is `UPDATE cashbook SET reconciled = 0 WHERE id = ?`,
but no table named `cashbook` is ever created (`shared/db.py` and
`pro/cash_book_tab.py` both create `cash_book`); sqlite3 raises
`OperationalError: no such table: cashbook`, the `except` branch rolls
back and reports an error dialog, and the database is unchanged. -/
def on_unreconcile_selected (st : DbState) (ids : List Nat) : DbState :=
  let _ := ids
  st

/-- Statement-line import (spec lifecycle: a `StatementLine` is created
on import with `matched_entry_id` NULL and `cleared` 0; the schema's
defaults). -/
def addStatementLine (st : DbState) (fitid dt : String) (desc : Option String)
    (amt : Option ℚ) : DbState :=
  { st with
    bank_statement_lines := st.bank_statement_lines ++
      [⟨st.nextStmtId, fitid, dt, desc, amt, none, false⟩]
    nextStmtId := st.nextStmtId + 1 }

/-- Cash-book entry creation: every `INSERT INTO cash_book` in the
source sets (or defaults) `reconciled` to 0. -/
def addCashBookEntry (st : DbState) (date account : String) (narr : Option String)
    (ref : String) (debit credit : Option ℚ) : DbState :=
  { st with
    cash_book := st.cash_book ++
      [⟨st.nextCbId, date, account, narr, ref, debit, credit, false⟩]
    nextCbId := st.nextCbId + 1 }

/-- Database states reachable through the reconciliation subsystem's
operations (the operations the specification's invariant ranges over). -/
inductive Reachable : DbState → Prop
  | init : Reachable initState
  | import_line {s} (fitid dt : String) (desc : Option String) (amt : Option ℚ) :
      Reachable s → Reachable (addStatementLine s fitid dt desc amt)
  | add_entry {s} (date account : String) (narr : Option String) (ref : String)
      (debit credit : Option ℚ) :
      Reachable s → Reachable (addCashBookEntry s date account narr ref debit credit)
  | auto_confirm {s} : Reachable s → Reachable (autoMatchConfirm s)
  | confirm {s} : Reachable s → Reachable (confirmMatches s)
  | match_sel {s} (fitid tx_date desc : String) (amt : ℚ) (rdate narr : String) :
      Reachable s →
      Reachable (match_selected_statement_lines s fitid tx_date desc amt rdate narr)
  | undo {s} : Reachable s → Reachable (undo_last_match s)
  | reconcile {s} (ids : List Nat) : Reachable s → Reachable (on_reconcile_selected s ids)
  | unreconcile {s} (ids : List Nat) :
      Reachable s → Reachable (on_unreconcile_selected s ids)

/-- The reconciliation invariant: a statement line whose
`matched_entry_id` is set references a cash-book entry that exists and is
reconciled. -/
def MatchedImpliesReconciled (st : DbState) : Prop :=
  ∀ l ∈ st.bank_statement_lines, ∀ cid, l.matched_entry_id = some cid →
    ∃ e ∈ st.cash_book, e.id = cid ∧ e.reconciled = true

/-! ## The CSV parser — `BankFeedImportThread.parse_csv`

Source (`pro/bank_feeds_tab.py` lines 86–108).  The `csv.DictReader`
tokenization is external input; a row is its association list of header →
cell.  Column lookup follows the Python `or`-chains, where a missing key
(`None`) and an empty cell (`''`) both fall through. -/

/-- `row.get(k)`. -/
def rowGet (row : List (String × String)) (k : String) : Option String :=
  (row.find? fun p => p.1 = k).map Prod.snd

/-- A Python `a or b or … or default` chain over optional strings
(`None` and `''` are falsy). -/
def firstTruthy : List (Option String) → String → String
  | [], dflt => dflt
  | o :: rest, dflt =>
      match o with
      | some s => if s = "" then firstTruthy rest dflt else s
      | none => firstTruthy rest dflt

/-- `str.strip()` on a `String`. -/
def strStrip (s : String) : String := ⟨pyStrip s.data⟩

/-- `parse_csv`: one transaction per data row; `Income` exactly for a
positive parsed amount. -/
def parse_csv (today : Ymd) (rows : List (List (String × String))) : List Txn :=
  rows.map fun row =>
    let date_raw := firstTruthy [rowGet row "Date", rowGet row "date",
      rowGet row "Transaction Date", rowGet row "Value Date"]
      ((row.head?.map Prod.snd).getD "")
    let desc := firstTruthy [rowGet row "Description", rowGet row "Narrative",
      rowGet row "Memo", rowGet row "Payee"] ""
    let amount_raw := firstTruthy [rowGet row "Amount", rowGet row "Amt",
      rowGet row "Value", rowGet row "Credit", rowGet row "Debit"] ""
    let amount := parse_amount amount_raw
    { date := parse_date today date_raw, description := strStrip desc,
      amount := amount,
      ttype := if amount > 0 then "Income" else "Expense" }

/-! ## The PDF parser — `BankFeedImportThread.parse_pdf`

Source (`pro/bank_feeds_tab.py` lines 111–165).  Text extraction (fitz /
pdfplumber) is the external input; the heuristic line-grouping over the
extracted text is modelled in full, including the two regexes
`date_pat` (two-digit day, slash-or-dash separator variants, or eight digits)
and `amount_pat = ([+-]?\d{1,3}(?:[.,\s]\d{3})*(?:[.,]\d{2}))`, with
Python's leftmost-position, ordered-alternative, greedy-with-backtracking
match semantics. -/

/-- The `\s` class of the regexes (ASCII fragment). -/
def reSpace (c : Char) : Bool := isPySpace c

/-- The slash-or-dash separator class of `date_pat`. -/
def sepDM (c : Char) : Bool := c = '/' || c = '-'

/-- First `date_pat` alternative: two digits, separator, two digits,
separator, then two to four digits (greedy); returns the match length. -/
def matchA1 : List Char → Option Nat
  | c0 :: c1 :: s2 :: c3 :: c4 :: s5 :: rest =>
      if c0.isDigit && c1.isDigit && sepDM s2 && c3.isDigit && c4.isDigit &&
          sepDM s5 then
        let k := (rest.takeWhile Char.isDigit).length
        if k ≥ 2 then some (6 + min k 4) else none
      else none
  | _ => none

/-- Second alternative `\d{8}`. -/
def matchA2 (s : List Char) : Option Nat :=
  if (s.take 8).length = 8 && (s.take 8).all Char.isDigit then some 8 else none

/-- Third alternative: four digits, separator, two digits, separator,
two digits. -/
def matchA3 : List Char → Option Nat
  | c0 :: c1 :: c2 :: c3 :: s4 :: c5 :: c6 :: s7 :: c8 :: c9 :: _ =>
      if c0.isDigit && c1.isDigit && c2.isDigit && c3.isDigit && sepDM s4 &&
          c5.isDigit && c6.isDigit && sepDM s7 && c8.isDigit && c9.isDigit then
        some 10
      else none
  | _ => none

/-- `date_pat` at one position: the alternatives in regex order. -/
def datePatAt (s : List Char) : Option Nat :=
  match matchA1 s with
  | some n => some n
  | none =>
      match matchA2 s with
      | some n => some n
      | none => matchA3 s

/-- `date_pat.search`: leftmost matching position and match length. -/
def datePatSearch : List Char → Nat → Option (Nat × Nat)
  | [], _ => none
  | l@(_ :: r), i =>
      match datePatAt l with
      | some len => some (i, len)
      | none => datePatSearch r (i + 1)

/-- Final `(?:[.,]\d{2})` of `amount_pat`. -/
def amtTail : List Char → Option Nat
  | c :: d1 :: d2 :: _ =>
      if (c = '.' || c = ',') && d1.isDigit && d2.isDigit then some 3 else none
  | _ => none

/-- Greedy `(?:[.,\s]\d{3})*` followed by the tail, with backtracking
(fuel-structured; any fuel above the list length is exact). -/
def amtStar : Nat → List Char → Option Nat
  | 0, cs => amtTail cs
  | fuel + 1, cs =>
      match cs with
      | c :: d1 :: d2 :: d3 :: rest =>
          if (c = '.' || c = ',' || reSpace c) && d1.isDigit && d2.isDigit &&
              d3.isDigit then
            match amtStar fuel rest with
            | some m => some (4 + m)
            | none => amtTail cs
          else amtTail cs
      | _ => amtTail cs

/-- Greedy `\d{1,3}` (three digits first) then star and tail. -/
def amtCore (cs : List Char) : Option Nat :=
  let t3 : Option Nat :=
    match cs with
    | a :: b :: c :: rest =>
        if a.isDigit && b.isDigit && c.isDigit then
          (amtStar rest.length rest).map fun m => 3 + m
        else none
    | _ => none
  let t2 : Option Nat :=
    match cs with
    | a :: b :: rest =>
        if a.isDigit && b.isDigit then (amtStar rest.length rest).map fun m => 2 + m
        else none
    | _ => none
  let t1 : Option Nat :=
    match cs with
    | a :: rest =>
        if a.isDigit then (amtStar rest.length rest).map fun m => 1 + m else none
    | _ => none
  match t3 with
  | some n => some n
  | none =>
      match t2 with
      | some n => some n
      | none => t1

/-- Optional `[+-]?` prefix of `amount_pat`. -/
def amtSign : List Char → Option Nat
  | [] => none
  | c :: rest =>
      if c = '+' || c = '-' then (amtCore rest).map fun m => 1 + m
      else amtCore (c :: rest)

/-- `amount_pat.search(...).group(1)`: the leftmost matched text. -/
def amountPatSearch : List Char → Option (List Char)
  | [] => none
  | l@(_ :: r) =>
      match amtSign l with
      | some len => some (l.take len)
      | none => amountPatSearch r

/-- Split on newline characters (with `\r` normalized first), the shape
`str.splitlines()` takes on extracted PDF text. -/
def splitOnNl : List Char → List (List Char)
  | [] => [[]]
  | '\n' :: r => [] :: splitOnNl r
  | c :: r =>
      match splitOnNl r with
      | [] => [[c]]
      | h :: t => (c :: h) :: t

/-- `[l.strip() for l in text.splitlines() if l.strip()]`. -/
def pdfLines (text : List Char) : List (List Char) :=
  ((splitOnNl (text.map fun c => if c = '\r' then '\n' else c)).map pyStrip).filter
    fun l => !l.isEmpty

/-- The inner while loop: collect description lines until one matches
`amount_pat`; returns the collected lines and, when found, the matched
amount text plus the lines after the amount line. -/
def scanAmount : List (List Char) → List (List Char) × Option (List Char × List (List Char))
  | [] => ([], none)
  | l :: r =>
      match amountPatSearch l with
      | some amt => ([], some (amt, r))
      | none =>
          let p := scanAmount r
          (l :: p.1, p.2)

/-- `' '.join` of the description parts. -/
def joinSpace : List (List Char) → List Char
  | [] => []
  | [l] => l
  | l :: r => l ++ ' ' :: joinSpace r

/-- The outer while loop of `parse_pdf` (fuel-structured; each iteration
consumes at least the date line, so the number of lines is enough fuel). -/
def pdfLoop (today : Ymd) : Nat → List (List Char) → List Txn
  | 0, _ => []
  | _ + 1, [] => []
  | fuel + 1, line :: rest =>
      match datePatSearch line 0 with
      | none => pdfLoop today fuel rest
      | some (start, len) =>
          let date_raw : List Char := (line.drop start).take len
          let descInit : List (List Char) :=
            if start > 0 then [pyStrip (line.take start)] else []
          let p := scanAmount rest
          let description :=
            let j := pyStrip (joinSpace ((descInit ++ p.1).filter fun d => !d.isEmpty))
            if j.isEmpty then ("PDF Import").data else j
          let amount : ℚ :=
            match p.2 with
            | some (amt, _) => parse_amount ⟨amt⟩
            | none => 0
          let remaining :=
            match p.2 with
            | some (_, r) => r
            | none => []
          { date := parse_date today ⟨date_raw⟩, description := ⟨description⟩,
            amount := amount,
            ttype := if amount > 0 then "Income" else "Expense" } ::
            pdfLoop today fuel remaining

/-- `parse_pdf` on the extracted text: an empty extraction raises
`ValueError('No text extracted from PDF (missing fitz/pdfplumber?)')`;
otherwise the heuristic grouping runs. -/
def parse_pdf (today : Ymd) (text : String) : Except String (List Txn) :=
  if text = "" then
    Except.error "No text extracted from PDF (missing fitz/pdfplumber?)"
  else
    Except.ok (pdfLoop today (pdfLines text.data).length (pdfLines text.data))

/-! ## The OFX parser — `BankFeedImportThread.parse_ofx`

Source (`pro/bank_feeds_tab.py` lines 168–226).  The `ofxparse`
library path is an optional external dependency; modelled here is the
in-repository fallback parser (the regex extraction over `<STMTTRN>`
blocks, lines 197–226), which also carries the claim's cited
classification line. -/

/-- ASCII lower-casing of a character list (the effect of the regexes'
`re.IGNORECASE` on these ASCII tag patterns). -/
def lowerL (l : List Char) : List Char := l.map Char.toLower

/-- Index of the first occurrence of `pat` in the list, scanning from
position `i`. -/
def substrIdx (pat : List Char) : List Char → Nat → Option Nat
  | [], i => if pat.isEmpty then some i else none
  | l@(_ :: r), i =>
      if pat.isPrefixOf l then some i else substrIdx pat r (i + 1)

/-- `re.findall(r'<STMTTRN>(.*?)</STMTTRN>', …, DOTALL | IGNORECASE)`:
non-overlapping blocks, lazily ending at the next closing tag. -/
def findBlocksGo : Nat → List Char → List (List Char)
  | 0, _ => []
  | fuel + 1, s =>
      match substrIdx (("<stmttrn>").data) (lowerL s) 0 with
      | none => []
      | some i =>
          let after := s.drop (i + 9)
          match substrIdx (("</stmttrn>").data) (lowerL after) 0 with
          | none => []
          | some j => after.take j :: findBlocksGo fuel (after.drop (j + 10))

/-- All `<STMTTRN>` blocks of the content. -/
def findBlocks (s : List Char) : List (List Char) := findBlocksGo s.length s

/-- Scan for a case-insensitive literal tag followed by a sub-matcher on
the rest; on sub-match failure the scan continues at the next position
(Python `re.search` semantics). -/
def searchTagWith (tag : List Char) (f : List Char → Option (List Char)) :
    List Char → Option (List Char)
  | [] => none
  | l@(_ :: r) =>
      if tag.isPrefixOf (lowerL l) then
        match f (l.drop tag.length) with
        | some res => some res
        | none => searchTagWith tag f r
      else searchTagWith tag f r

/-- `\s*([0-9]{lo,hi})` after a tag (greedy, at least `lo` digits). -/
def tagDigitsAt (lo hi : Nat) (s : List Char) : Option (List Char) :=
  let r := s.dropWhile reSpace
  let ds := r.takeWhile Char.isDigit
  if ds.length ≥ lo then some (ds.take hi) else none

/-- `\s*([+-]?\d+[\.,]?\d*)` after the `<TRNAMT>` tag. -/
def trnamtAt (s : List Char) : Option (List Char) :=
  let r := s.dropWhile reSpace
  let sgn := if r.head? = some '+' || r.head? = some '-' then r.take 1 else []
  let r1 := r.drop sgn.length
  let d1 := r1.takeWhile Char.isDigit
  if d1.isEmpty then none
  else
    let r2 := r1.drop d1.length
    let dot := if r2.head? = some '.' || r2.head? = some ',' then r2.take 1 else []
    let d2 := (r2.drop dot.length).takeWhile Char.isDigit
    some (sgn ++ d1 ++ dot ++ d2)

/-- `\s*([^<\r\n]+)` after a `<NAME>`/`<MEMO>` tag.  When only
whitespace precedes the next `<`, the regex backtracks into the
whitespace and matches it as the group (which the caller strips away);
with only `\r`/`\n` before the blocker there is no match here and the
scan continues. -/
def nameAt (s : List Char) : Option (List Char) :=
  let ws := s.takeWhile reSpace
  let r := s.drop ws.length
  let nm := r.takeWhile fun c => !(c = '<' || c = '\r' || c = '\n')
  if !nm.isEmpty then some nm
  else if ws.any fun c => !(c = '\r' || c = '\n') then some [' ']
  else none

/-- Collapse whitespace runs to single spaces (`re.sub(r'\s+', ' ', …)`). -/
def collapseWsGo : Bool → List Char → List Char
  | _, [] => []
  | inWs, c :: r =>
      if reSpace c then
        if inWs then collapseWsGo true r else ' ' :: collapseWsGo true r
      else c :: collapseWsGo false r

/-- Whitespace-run collapsing, starting outside a run. -/
def collapseWs (l : List Char) : List Char := collapseWsGo false l

/-- `parse_date_ofx`: eight leading digits as `YYYYMMDD` when they form a
valid date, else the generic `parse_date` fallback; empty input defaults
to today. -/
def parse_date_ofx (today : Ymd) (dtstr : String) : String :=
  if dtstr = "" then fmtIso today
  else
    match dtstr.data with
    | y1 :: y2 :: y3 :: y4 :: m1 :: m2 :: d1 :: d2 :: _ =>
        if ([y1, y2, y3, y4, m1, m2, d1, d2]).all Char.isDigit then
          if validYmd ⟨digitsToNat [y1, y2, y3, y4], digitsToNat [m1, m2],
              digitsToNat [d1, d2]⟩ then
            fmtIso ⟨digitsToNat [y1, y2, y3, y4], digitsToNat [m1, m2],
              digitsToNat [d1, d2]⟩
          else parse_date today dtstr
        else parse_date today dtstr
    | _ => parse_date today dtstr

/-- One `<STMTTRN>` block: skipped without a `<TRNAMT>` match; the
amount's comma becomes a dot before `float()` (which cannot fail on text
matched by the `TRNAMT` pattern); the description prefers `NAME` over
`MEMO`, collapses whitespace, truncates to 200, and defaults to
`'OFX Import'`. -/
def ofxBlockTxn (today : Ymd) (blk : List Char) : Option Txn :=
  match searchTagWith (("<trnamt>").data) trnamtAt blk with
  | none => none
  | some am =>
      let dtStr := (searchTagWith (("<dtposted>").data) (tagDigitsAt 8 14) blk).getD []
      let amount := (pyFloat? (am.map fun c => if c = ',' then '.' else c)).getD 0
      let nm := ((searchTagWith (("<name>").data) nameAt blk).map pyStrip).getD []
      let name :=
        if !nm.isEmpty then nm
        else ((searchTagWith (("<memo>").data) nameAt blk).map pyStrip).getD []
      let desc := (collapseWs name).take 200
      some { date := parse_date_ofx today ⟨dtStr⟩,
             description := if desc.isEmpty then "OFX Import" else ⟨desc⟩,
             amount := amount,
             ttype := if amount > 0 then "Income" else "Expense" }

/-- The fallback OFX parser: cut the content at `<OFX` (case-sensitive
`str.find`), then emit one transaction per block carrying an amount. -/
def parse_ofx (today : Ymd) (content : String) : List Txn :=
  let cut :=
    match substrIdx (("<OFX").data) content.data 0 with
    | some i => content.data.drop i
    | none => content.data
  (findBlocks cut).filterMap (ofxBlockTxn today)

/-! ## The worker boundary — `BankFeedImportThread.run`

Source (`pro/bank_feeds_tab.py` lines 66–83): the worker emits exactly
one of two signals — `finished(transactions)` on success, or, when any
parser raises, `error(f'{e}\n\n{tb}')` with `tb = traceback.format_exc()`
appended to the exception message.  `Except.error` carries the exception
message; `tb` is the traceback text. -/

/-- The two worker outcomes (the `finished` / `error` signals). -/
inductive WorkerOut where
  | errorOut (msg : String)
  | finishedOut (txns : List Txn)
deriving DecidableEq, Repr

/-- The `try/except` of `BankFeedImportThread.run` around a parser
outcome. -/
def workerRun (parseResult : Except String (List Txn)) (tb : String) : WorkerOut :=
  match parseResult with
  | Except.ok ts => WorkerOut.finishedOut ts
  | Except.error e => WorkerOut.errorOut (e ++ "\n\n" ++ tb)

/-! ## Theorems -/

/-- Bridge: `mkRat` is ordinary rational division. -/
theorem mkRat_eq_div' (n : ℤ) (d : ℕ) : mkRat n d = (n : ℚ) / (d : ℚ) := by
  rw [Rat.mkRat_eq_divInt, Rat.divInt_eq_div]
  norm_num

/-- Bridge: `qAdd` is rational addition. -/
theorem qAdd_eq (a b : ℚ) : qAdd a b = a + b := (Rat.add_def' a b).symm

/-- Bridge: `qSub` is rational subtraction. -/
theorem qSub_eq (a b : ℚ) : qSub a b = a - b := (Rat.sub_def' a b).symm

/-- Bridge: `qMul` is rational multiplication. -/
theorem qMul_eq (a b : ℚ) : qMul a b = a * b := (Rat.mul_eq_mkRat a b).symm

/-- C5 counterexample: on `"1.234,56"` the code removes the commas (both
separators present), producing `1.23456`, not the claimed `1234.56`. -/
theorem parse_amount_european_example_fails :
    parse_amount ("1.234,56") = 123456 / 100000 ∧
    parse_amount ("1.234,56") ≠ 123456 / 100 := by
  have h1 : (123456 / 100000 : ℚ) = mkRat 123456 100000 := by
    rw [mkRat_eq_div']
    norm_num
  have h2 : (123456 / 100 : ℚ) = mkRat 123456 100 := by
    rw [mkRat_eq_div']
    norm_num
  rw [h1, h2]
  exact ⟨by decide, by decide⟩

/-- C5 (amended): `"1,234.56"`, `"1234,56"` and `" R 1 234.56 "` all
normalize to `1234.56`; `"1.234,56"` normalizes to `1.23456` (commas are
removed whenever both `.` and `,` occur); any string whose cleaned form
does not parse as a float yields `0` silently. -/
theorem amount_normalization_spec :
    parse_amount ("1,234.56") = 123456 / 100 ∧
    parse_amount ("1.234,56") = 123456 / 100000 ∧
    parse_amount ("1234,56") = 123456 / 100 ∧
    parse_amount (" R 1 234.56 ") = 123456 / 100 ∧
    ∀ s : String, pyFloat? (cleanAmountChars (pyStrip s.data)) = none →
      parse_amount s = 0 := by
  have h1 : (123456 / 100 : ℚ) = mkRat 123456 100 := by
    rw [mkRat_eq_div']
    norm_num
  have h2 : (123456 / 100000 : ℚ) = mkRat 123456 100000 := by
    rw [mkRat_eq_div']
    norm_num
  rw [h1, h2]
  refine ⟨by decide, by decide, by decide, by decide, ?_⟩
  intro s h
  simp [parse_amount, h]

/-- C5 witness: an unparsable amount string yields `0`. -/
theorem amount_normalization_spec_witness : parse_amount ("abc") = 0 :=
  amount_normalization_spec.2.2.2.2 ("abc") (by decide)

/-- C6 counterexample: `"x20250131x"` is rejected by every one of the
seven strptime formats, yet `parse_date` does not fall back to today's
date: the embedded eight-digit run is extracted by `re.search(r'(\d{8})')`
and parsed as `%Y%m%d`. -/
theorem parse_date_default_claim_fails :
    tryFormats (pyStrip ("x20250131x").data) = none ∧
    parse_date ⟨2025, 6, 15⟩ ("x20250131x") = "2025-01-31" ∧
    parse_date ⟨2025, 6, 15⟩ ("x20250131x") ≠ fmtIso ⟨2025, 6, 15⟩ := by
  refine ⟨by decide, by decide, by decide⟩

/-- C6 (amended): the ordered format list resolves `"31/01/2025"`,
`"2025-01-31"` and `"20250131"` to `2025-01-31`, and the ambiguous
`"01/02/2025"` to `2025-02-01` (`%d/%m/%Y` comes first); a string
rejected by all seven formats is then searched for an embedded run of
eight digits tried as `%Y%m%d`, and only if that too fails is the row
defaulted to today's date (never an error). -/
theorem date_normalization_spec (t : Ymd) :
    parse_date t ("31/01/2025") = "2025-01-31" ∧
    parse_date t ("2025-01-31") = "2025-01-31" ∧
    parse_date t ("20250131") = "2025-01-31" ∧
    parse_date t ("01/02/2025") = "2025-02-01" ∧
    ∀ s : String, tryFormats (pyStrip s.data) = none →
      find8 (pyStrip s.data) = none → parse_date t s = fmtIso t := by
  refine ⟨rfl, rfl, rfl, rfl, ?_⟩
  intro s h1 h2
  simp only [parse_date, h1, h2]
  split <;> rfl

/-- C6 witness: a fully unparseable date string defaults to today. -/
theorem date_normalization_spec_witness :
    parse_date ⟨2025, 6, 15⟩ ("hello") = fmtIso ⟨2025, 6, 15⟩ :=
  (date_normalization_spec ⟨2025, 6, 15⟩).2.2.2.2 ("hello") (by decide) (by decide)

/-- C7: the duplicate filter fires exactly when some persisted row has
the same date and a case-insensitively equal description; the amount
column plays no role (replacing every amount leaves the answer
unchanged). -/
theorem is_duplicate_transaction_spec :
    (∀ (db : List Txn) (date description : String),
      is_duplicate_transaction db date description = true ↔
        ∃ r ∈ db, r.date = date ∧ strLower r.description = strLower description) ∧
    (∀ (db : List Txn) (date description : String) (f : Txn → ℚ),
      is_duplicate_transaction (db.map fun r => { r with amount := f r }) date description =
        is_duplicate_transaction db date description) := by
  constructor
  · intro db date description
    simp [is_duplicate_transaction, List.any_eq_true]
  · intro db date description f
    unfold is_duplicate_transaction
    rw [List.any_map]
    rfl

/-- Every transaction is a duplicate of itself once persisted. -/
theorem self_duplicate (db : List Txn) (t : Txn) (h : t ∈ db) :
    is_duplicate_transaction db t.date t.description = true := by
  simp only [is_duplicate_transaction, List.any_eq_true]
  exact ⟨t, h, by simp⟩

/-- C3: importing the same batch twice adds no rows on the second pass —
every transaction of the batch now matches either a pre-existing row or
its own row persisted by the first pass, so the duplicate filter skips
it; the table (hence its row count) is unchanged. -/
theorem import_idempotent (db ts : List Txn) :
    save_transactions (save_transactions db ts) ts = save_transactions db ts ∧
    (save_transactions (save_transactions db ts) ts).length =
      (save_transactions db ts).length := by
  have hfil : (ts.filter fun t =>
      !is_duplicate_transaction (save_transactions db ts) t.date t.description) = [] := by
    rw [List.filter_eq_nil_iff]
    intro t ht
    simp only [Bool.not_eq_true', Bool.not_eq_false]
    by_cases hdup : is_duplicate_transaction db t.date t.description = true
    · rcases (by simpa [is_duplicate_transaction, List.any_eq_true] using hdup :
        ∃ r ∈ db, r.date = t.date ∧ strLower r.description = strLower t.description)
        with ⟨r, hr, h1, h2⟩
      simp only [is_duplicate_transaction, List.any_eq_true, save_transactions]
      exact ⟨r, List.mem_append_left _ hr, by simp [h1, h2]⟩
    · have hmem : t ∈ save_transactions db ts := by
        unfold save_transactions
        refine List.mem_append_right _ ?_
        rw [List.mem_filter]
        exact ⟨ht, by simp [hdup]⟩
      exact self_duplicate _ t hmem
  constructor
  · conv_lhs => rw [save_transactions, hfil]
    rw [List.append_nil]
  · conv_lhs => rw [save_transactions, hfil]
    rw [List.append_nil]

/-- Monotonicity and characterization of the best-candidate fold. -/
theorem bestFold_spec (s : StmtLine) (cbs : List CashBookEntry) :
    ∀ acc : Option CashBookEntry × ℚ,
      acc.2 ≤ (cbs.foldl (bestStep s) acc).2 ∧
      (∀ c' ∈ cbs, eligible s c' = true →
        simSC s c' ≤ (cbs.foldl (bestStep s) acc).2) ∧
      (cbs.foldl (bestStep s) acc = acc ∨
        ∃ c ∈ cbs, eligible s c = true ∧
          cbs.foldl (bestStep s) acc = (some c, simSC s c)) := by
  induction cbs with
  | nil => exact fun acc => ⟨le_refl _, by simp, Or.inl rfl⟩
  | cons c rest ih =>
      intro acc
      simp only [List.foldl_cons]
      obtain ⟨ih1, ih2, ih3⟩ := ih (bestStep s acc c)
      have hstep : acc.2 ≤ (bestStep s acc c).2 := by
        unfold bestStep
        split
        · split
          · exact le_of_lt (by assumption)
          · exact le_refl _
        · exact le_refl _
      refine ⟨le_trans hstep ih1, ?_, ?_⟩
      · intro c' hc' he
        rcases List.mem_cons.mp hc' with hc' | hc'
        · subst hc'
          have : simSC s c' ≤ (bestStep s acc c').2 := by
            unfold bestStep
            rw [he]
            simp only [if_true]
            split
            · exact le_refl _
            · exact le_of_not_lt (by assumption)
          exact le_trans this ih1
        · exact ih2 c' hc' he
      · rcases ih3 with h | ⟨c0, hc0, he0, hr0⟩
        · by_cases he : eligible s c = true
          · by_cases hgt : simSC s c > acc.2
            · refine Or.inr ⟨c, List.mem_cons_self c rest, he, ?_⟩
              rw [h]
              unfold bestStep
              rw [he, if_pos hgt]
              simp
            · refine Or.inl ?_
              rw [h]
              unfold bestStep
              rw [he, if_neg hgt]
              simp
          · refine Or.inl ?_
            rw [h]
            unfold bestStep
            rw [if_neg he]
        · exact Or.inr ⟨c0, List.mem_cons_of_mem c hc0, he0, hr0⟩

/-- C1: every proposal `(sid, cid, score)` of `auto_match` pairs a given
statement line with a ledger entry whose net amount is within `0.01` of
the statement amount and whose date is at most three days away (so never
exactly four); the retained entry maximizes the case-insensitive
sequence similarity of description and narration over all eligible
candidates, and its score strictly exceeds `0.4`. -/
theorem auto_match_spec (stmts : List StmtLine) (cbs : List CashBookEntry)
    (sid cid : Nat) (score : ℚ)
    (h : (sid, cid, score) ∈ auto_match stmts cbs) :
    ∃ s ∈ stmts, sid = s.id ∧ ∃ c ∈ cbs, cid = c.id ∧
      |cbNet c - s.amount.getD 0| ≤ 1 / 100 ∧
      dateDiffDays s.tx_date c.date ≤ 3 ∧
      dateDiffDays s.tx_date c.date ≠ 4 ∧
      score = simSC s c ∧ (2 / 5 : ℚ) < score ∧
      ∀ c' ∈ cbs, eligible s c' = true → simSC s c' ≤ score := by
  have h25 : mkRat 2 5 = (2 / 5 : ℚ) := by
    rw [mkRat_eq_div']
    norm_num
  have h100 : mkRat 1 100 = (1 / 100 : ℚ) := by
    rw [mkRat_eq_div']
    norm_num
  unfold auto_match at h
  rw [List.mem_filterMap] at h
  obtain ⟨s, hs, hmatch⟩ := h
  obtain ⟨_, hmono, hchar⟩ := bestFold_spec s cbs (none, 0)
  rcases hp : bestFor s cbs with ⟨ob, sc⟩
  rw [hp] at hmatch
  cases ob with
  | none => simp at hmatch
  | some c =>
      simp only [gt_iff_lt] at hmatch
      split at hmatch
      case isFalse => simp at hmatch
      case isTrue hgt =>
        rw [Option.some.injEq, Prod.mk.injEq, Prod.mk.injEq] at hmatch
        obtain ⟨h1, h2, h3⟩ := hmatch
        subst h1
        subst h2
        subst h3
        have hbf : List.foldl (bestStep s) (none, 0) cbs = (some c, sc) := hp
        rcases hchar with heq | ⟨c0, hc0, he0, hr0⟩
        · rw [hbf] at heq
          simp at heq
        · rw [hbf] at hr0
          rw [Prod.mk.injEq, Option.some.injEq] at hr0
          obtain ⟨h4, h5⟩ := hr0
          subst h4
          have he0' := he0
          unfold eligible at he0'
          rw [Bool.and_eq_true, decide_eq_true_eq, decide_eq_true_eq] at he0'
          obtain ⟨ha, hd⟩ := he0'
          rw [qSub_eq, h100] at ha
          refine ⟨s, hs, rfl, c, hc0, rfl, ha, hd, by omega, h5, ?_, ?_⟩
          · rw [← h25]
            exact h5 ▸ hgt
          · intro c' hc' he'
            have := hmono c' hc' he'
            rw [hbf] at this
            exact h5 ▸ this

/-- Every proposal references an entry of the candidate list. -/
theorem auto_match_mem {stmts : List StmtLine} {cbs : List CashBookEntry}
    {p : Nat × Nat × ℚ} (hp : p ∈ auto_match stmts cbs) :
    ∃ c ∈ cbs, p.2.1 = c.id := by
  unfold auto_match at hp
  rw [List.mem_filterMap] at hp
  obtain ⟨s, _, hm⟩ := hp
  rcases hq : bestFor s cbs with ⟨ob, sc⟩
  rw [hq] at hm
  cases ob with
  | none => simp at hm
  | some c =>
      simp only [gt_iff_lt] at hm
      split at hm
      case isFalse => simp at hm
      case isTrue =>
        rw [Option.some.injEq] at hm
        obtain ⟨_, _, hchar⟩ := bestFold_spec s cbs (none, 0)
        have hbf : List.foldl (bestStep s) (none, 0) cbs = (some c, sc) := hq
        rcases hchar with heq | ⟨c0, hc0, _, hr0⟩
        · rw [hbf] at heq
          simp at heq
        · rw [hbf, Prod.mk.injEq, Option.some.injEq] at hr0
          obtain ⟨h4, _⟩ := hr0
          subst h4
          rw [← hm]
          exact ⟨c, hc0, rfl⟩

/-- `setReconciled` keeps every id present. -/
theorem setReconciled_exists_id {cb : List CashBookEntry} {cid : Nat}
    (b : Bool) (cid' : Nat) (h : ∃ e ∈ cb, e.id = cid) :
    ∃ e ∈ setReconciled b cid' cb, e.id = cid := by
  obtain ⟨e, he, hid⟩ := h
  unfold setReconciled
  refine ⟨_, List.mem_map_of_mem _ he, ?_⟩
  split <;> exact hid

/-- `setReconciled true cid` makes some entry of an existing id
reconciled at that id. -/
theorem setReconciled_true_self {cb : List CashBookEntry} {cid : Nat}
    (h : ∃ e ∈ cb, e.id = cid) :
    ∃ e ∈ setReconciled true cid cb, e.id = cid ∧ e.reconciled = true := by
  obtain ⟨e, he, hid⟩ := h
  unfold setReconciled
  refine ⟨_, List.mem_map_of_mem _ he, ?_⟩
  rw [if_pos hid]
  exact ⟨hid, rfl⟩

/-- `setReconciled true` never unreconciles: a reconciled entry of some
id stays reconciled. -/
theorem setReconciled_true_keep {cb : List CashBookEntry} {cid cid' : Nat}
    (h : ∃ e ∈ cb, e.id = cid ∧ e.reconciled = true) :
    ∃ e ∈ setReconciled true cid' cb, e.id = cid ∧ e.reconciled = true := by
  obtain ⟨e, he, hid, hrec⟩ := h
  unfold setReconciled
  refine ⟨_, List.mem_map_of_mem _ he, ?_⟩
  split
  · exact ⟨hid, rfl⟩
  · exact ⟨hid, hrec⟩

/-- One apply-match step preserves the invariant, provided the linked
entry exists. -/
theorem applyMatch_inv {st : DbState} {p : Nat × Nat × ℚ}
    (hinv : MatchedImpliesReconciled st)
    (hex : ∃ e ∈ st.cash_book, e.id = p.2.1) :
    MatchedImpliesReconciled (applyMatch st p) := by
  intro l hl cid hcid
  obtain ⟨l0, hl0, rfl⟩ := List.mem_map.mp hl
  by_cases hid : l0.id = p.1
  · rw [if_pos hid] at hcid
    simp only [Option.some.injEq] at hcid
    subst hcid
    exact setReconciled_true_self hex
  · rw [if_neg hid] at hcid
    exact setReconciled_true_keep (hinv l0 hl0 cid hcid)

/-- Folding apply-match over pairs whose entries exist preserves the
invariant. -/
theorem foldl_applyMatch_inv :
    ∀ (ps : List (Nat × Nat × ℚ)) (st : DbState),
      MatchedImpliesReconciled st →
      (∀ p ∈ ps, ∃ e ∈ st.cash_book, e.id = p.2.1) →
      MatchedImpliesReconciled (ps.foldl applyMatch st) := by
  intro ps
  induction ps with
  | nil => exact fun st h _ => h
  | cons p ps ih =>
      intro st hinv hex
      rw [List.foldl_cons]
      refine ih _ (applyMatch_inv hinv (hex p (List.mem_cons_self p ps))) ?_
      intro q hq
      exact setReconciled_exists_id _ _ (hex q (List.mem_cons_of_mem p hq))

/-- C2 counterexample: in a reachable state holding a confirmed match,
the unreconcile operation leaves both the statement line's
`matched_entry_id` and the ledger entry's `reconciled` flag set — it
clears neither side (its UPDATE names the nonexistent table `cashbook`
and always fails), refuting the claim that it clears both atomically. -/
theorem unreconcile_clears_neither_side :
    Reachable
      (on_unreconcile_selected
        (match_selected_statement_lines
          (addCashBookEntry initState ("2025-01-10") ("1") (some "ABC") ("r")
            (some 150) (some 0))
          ("F1") ("2025-01-10") ("ABC") 150 ("2025-01-10") ("ABC")) [1]) ∧
    (∃ l ∈ (on_unreconcile_selected
        (match_selected_statement_lines
          (addCashBookEntry initState ("2025-01-10") ("1") (some "ABC") ("r")
            (some 150) (some 0))
          ("F1") ("2025-01-10") ("ABC") 150 ("2025-01-10") ("ABC"))
        [1]).bank_statement_lines,
      l.matched_entry_id = some 1) ∧
    ∃ e ∈ (on_unreconcile_selected
        (match_selected_statement_lines
          (addCashBookEntry initState ("2025-01-10") ("1") (some "ABC") ("r")
            (some 150) (some 0))
          ("F1") ("2025-01-10") ("ABC") 150 ("2025-01-10") ("ABC"))
        [1]).cash_book,
      e.id = 1 ∧ e.reconciled = true := by
  refine ⟨?_, by decide, by decide⟩
  exact Reachable.unreconcile [1]
    (Reachable.match_sel _ _ _ _ _ _
      (Reachable.add_entry _ _ _ _ _ _ Reachable.init))

/-- C2 (amended): every state reachable through the reconciliation
operations satisfies the invariant — a statement line with
`matched_entry_id` set references an existing, reconciled cash-book
entry — and the unreconcile operation changes nothing at all (so in
particular it does not clear both sides; `undo_last_match` is the
operation that clears both). -/
theorem reconciliation_invariant (s : DbState) (h : Reachable s) :
    MatchedImpliesReconciled s ∧ ∀ ids, on_unreconcile_selected s ids = s := by
  refine ⟨?_, fun ids => rfl⟩
  induction h with
  | init => intro l hl
            simp [initState] at hl
  | import_line fitid dt desc amt _ ih =>
      intro l hl cid hcid
      rcases List.mem_append.mp hl with hl | hl
      · exact ih l hl cid hcid
      · simp only [List.mem_singleton] at hl
        subst hl
        simp at hcid
  | add_entry date account narr ref debit credit _ ih =>
      intro l hl cid hcid
      obtain ⟨e, he, hprops⟩ := ih l hl cid hcid
      exact ⟨e, List.mem_append_left _ he, hprops⟩
  | auto_confirm _ ih =>
      refine foldl_applyMatch_inv _ _ ih ?_
      intro p hp
      obtain ⟨c, hc, hid⟩ := auto_match_mem hp
      exact ⟨c, List.mem_of_mem_filter hc, hid.symm⟩
  | confirm _ ih =>
      refine foldl_applyMatch_inv _ _ ih ?_
      intro p hp
      rw [List.mem_filterMap] at hp
      obtain ⟨l, hl, hmap⟩ := hp
      cases hml : l.matched_entry_id with
      | none => rw [hml] at hmap
                simp at hmap
      | some c =>
          rw [hml] at hmap
          simp only [Option.map_some', Option.some.injEq] at hmap
          obtain ⟨e, he, hid, _⟩ := ih l hl c hml
          rw [← hmap]
          exact ⟨e, he, hid⟩
  | match_sel fitid tx_date desc amt rdate narr _ ih =>
      rename_i s' _
      unfold match_selected_statement_lines
      cases hfind : findCbByDateNarr s' rdate narr with
      | none => exact ih
      | some e =>
          intro l hl cid hcid
          rcases List.mem_append.mp hl with hl | hl
          · exact setReconciled_true_keep (ih l hl cid hcid)
          · simp only [List.mem_singleton] at hl
            subst hl
            simp only [Option.some.injEq] at hcid
            subst hcid
            refine setReconciled_true_self ⟨e, ?_, rfl⟩
            exact List.mem_of_find?_eq_some hfind
  | undo _ ih =>
      rename_i s' _
      unfold undo_last_match pop_undo
      cases hmax : maxUndo? s'.bank_undo with
      | none => exact ih
      | some r =>
          simp only
          split
          case isFalse => exact ih
          case isTrue =>
            cases hdec : decodeMatchPayload r.payload with
            | none => exact ih
            | some t =>
                obtain ⟨lid, fid, amt⟩ := t
                intro l hl cid hcid
                rw [List.mem_filter] at hl
                obtain ⟨hl, hkeep⟩ := hl
                obtain ⟨e, he, hid, hrec⟩ := ih l hl cid hcid
                have hne : (cid : ℤ) ≠ lid := by
                  intro hccc
                  rw [hcid] at hkeep
                  simp [hccc] at hkeep
                refine ⟨_, List.mem_map_of_mem _ he, ?_⟩
                rw [if_neg (by rw [hid]; exact hne)]
                exact ⟨hid, hrec⟩
  | reconcile ids _ ih =>
      intro l hl cid hcid
      obtain ⟨e, he, hid, hrec⟩ := ih l hl cid hcid
      refine ⟨_, List.mem_map_of_mem _ he, ?_⟩
      split
      · exact ⟨hid, rfl⟩
      · exact ⟨hid, hrec⟩
  | unreconcile ids _ ih => exact ih

/-- C2 witness: the invariant and the unreconcile-is-inert facts, at the
reachable state holding a confirmed match. -/
theorem reconciliation_invariant_witness :
    MatchedImpliesReconciled
      (match_selected_statement_lines
        (addCashBookEntry initState ("2025-01-10") ("1") (some "ABC") ("r")
          (some 150) (some 0))
        ("F1") ("2025-01-10") ("ABC") 150 ("2025-01-10") ("ABC")) ∧
    on_unreconcile_selected
      (match_selected_statement_lines
        (addCashBookEntry initState ("2025-01-10") ("1") (some "ABC") ("r")
          (some 150) (some 0))
        ("F1") ("2025-01-10") ("ABC") 150 ("2025-01-10") ("ABC")) [1] =
      match_selected_statement_lines
        (addCashBookEntry initState ("2025-01-10") ("1") (some "ABC") ("r")
          (some 150) (some 0))
        ("F1") ("2025-01-10") ("ABC") 150 ("2025-01-10") ("ABC") := by
  have h := reconciliation_invariant _
    (Reachable.match_sel ("F1") ("2025-01-10") ("ABC") 150 ("2025-01-10") ("ABC")
      (Reachable.add_entry ("2025-01-10") ("1") (some "ABC") ("r")
        (some 150) (some 0) Reachable.init))
  exact ⟨h.1, h.2 [1]⟩

/-- Properties of a decimal digit character. -/
theorem digitChar_props {d : Nat} (h : d < 10) :
    (Char.ofNat (48 + d)).isDigit = true ∧ Char.ofNat (48 + d) ≠ '|' ∧
    isPySpace (Char.ofNat (48 + d)) = false ∧ dv (Char.ofNat (48 + d)) = d := by
  interval_cases d <;> exact ⟨by decide, by decide, by decide, by decide⟩

/-- Every character produced by the digit renderer satisfies any property
of digit characters. -/
theorem natCharsGo_forall {P : Char → Prop}
    (hP : ∀ d, d < 10 → P (Char.ofNat (48 + d))) :
    ∀ fuel n acc, (∀ c ∈ acc, P c) → ∀ c ∈ natCharsGo fuel n acc, P c := by
  intro fuel
  induction fuel with
  | zero =>
      intro n acc hacc c hc
      unfold natCharsGo at hc
      rcases List.mem_cons.mp hc with hc | hc
      · subst hc
        exact hP _ (Nat.mod_lt _ (by omega))
      · exact hacc c hc
  | succ fuel ih =>
      intro n acc hacc c hc
      unfold natCharsGo at hc
      split at hc
      case isTrue hlt =>
        rcases List.mem_cons.mp hc with hc | hc
        · subst hc
          exact hP _ hlt
        · exact hacc c hc
      case isFalse =>
        refine ih _ _ ?_ c hc
        intro c' hc'
        rcases List.mem_cons.mp hc' with hc' | hc'
        · subst hc'
          exact hP _ (Nat.mod_lt _ (by omega))
        · exact hacc c' hc'

/-- The digits of `natChars` are digit characters, never `'|'`, never
whitespace. -/
theorem natChars_digits (n : Nat) :
    ∀ c ∈ natChars n, c.isDigit = true ∧ c ≠ '|' ∧ isPySpace c = false := by
  refine natCharsGo_forall ?_ n n [] (by simp)
  intro d hd
  exact ⟨(digitChar_props hd).1, (digitChar_props hd).2.1, (digitChar_props hd).2.2.1⟩

/-- The digit renderer never returns the empty list. -/
theorem natCharsGo_ne_nil : ∀ fuel n acc, natCharsGo fuel n acc ≠ [] := by
  intro fuel
  induction fuel with
  | zero => intro n acc
            simp [natCharsGo]
  | succ fuel ih =>
      intro n acc
      unfold natCharsGo
      split
      · simp
      · exact ih _ _

/-- Value round-trip of the digit renderer. -/
theorem natCharsGo_foldl : ∀ fuel n acc, n ≤ fuel →
    List.foldl (fun a c => 10 * a + dv c) 0 (natCharsGo fuel n acc) =
    List.foldl (fun a c => 10 * a + dv c) n acc := by
  intro fuel
  induction fuel with
  | zero =>
      intro n acc hn
      have hn0 : n = 0 := by omega
      subst hn0
      unfold natCharsGo
      rw [List.foldl_cons]
      have := (digitChar_props (show 0 % 10 < 10 by omega)).2.2.2
      rw [show 10 * 0 + dv (Char.ofNat (48 + 0 % 10)) = 0 by omega]
  | succ fuel ih =>
      intro n acc hn
      unfold natCharsGo
      split
      case isTrue hlt =>
        rw [List.foldl_cons]
        have := (digitChar_props hlt).2.2.2
        rw [show 10 * 0 + dv (Char.ofNat (48 + n)) = n by omega]
      case isFalse hge =>
        rw [ih (n / 10) _ (by omega), List.foldl_cons]
        have := (digitChar_props (show n % 10 < 10 from Nat.mod_lt _ (by omega))).2.2.2
        rw [show 10 * (n / 10) + dv (Char.ofNat (48 + n % 10)) = n by omega]

/-- `int(str(n)) = n`. -/
theorem digitsToNat_natChars (n : Nat) : digitsToNat (natChars n) = n := by
  have h := natCharsGo_foldl n n [] le_rfl
  simpa [digitsToNat, natChars] using h

/-- A list of non-matching characters is untouched by `dropWhile`. -/
theorem dropWhile_eq_self_of_forall {p : Char → Bool} {l : List Char}
    (h : ∀ c ∈ l, p c = false) : l.dropWhile p = l := by
  cases l with
  | nil => rfl
  | cons c r =>
      rw [List.dropWhile_cons, h c (List.mem_cons_self c r)]
      simp

/-- Whitespace-free text is untouched by `strip()`. -/
theorem pyStrip_eq_self {l : List Char} (h : ∀ c ∈ l, isPySpace c = false) :
    pyStrip l = l := by
  unfold pyStrip
  rw [dropWhile_eq_self_of_forall h,
    dropWhile_eq_self_of_forall (fun c hc => h c (List.mem_reverse.mp hc)),
    List.reverse_reverse]

/-- `takeWhile` / `dropWhile` at a separating character. -/
theorem takeWhile_append_sep {p : Char → Bool} :
    ∀ (l1 : List Char) (x : Char) (l2 : List Char),
      (∀ c ∈ l1, p c = true) → p x = false →
      (l1 ++ x :: l2).takeWhile p = l1 ∧ (l1 ++ x :: l2).dropWhile p = x :: l2 := by
  intro l1
  induction l1 with
  | nil =>
      intro x l2 _ hx
      simp [List.takeWhile_cons, List.dropWhile_cons, hx]
  | cons c l1 ih =>
      intro x l2 h hx
      have hc := h c (List.mem_cons_self _ _)
      obtain ⟨ih1, ih2⟩ := ih x l2 (fun c' hc' => h c' (List.mem_cons_of_mem _ hc')) hx
      constructor
      · simp [List.takeWhile_cons, hc, ih1]
      · simp [List.dropWhile_cons, hc, ih2]

/-- `takeWhile` / `dropWhile` on all-matching text. -/
theorem takeWhile_eq_self_of_forall {p : Char → Bool} {l : List Char}
    (h : ∀ c ∈ l, p c = true) : l.takeWhile p = l ∧ l.dropWhile p = [] := by
  induction l with
  | nil => simp
  | cons c r ih =>
      obtain ⟨ih1, ih2⟩ := ih (fun c' hc' => h c' (List.mem_cons_of_mem _ hc'))
      have hc := h c (List.mem_cons_self _ _)
      constructor
      · simp [List.takeWhile_cons, hc, ih1]
      · simp [List.dropWhile_cons, hc, ih2]

/-- `pyInt?` on a pure digit string returns its value. -/
theorem pyInt?_all_digits {l : List Char} (hne : l ≠ [])
    (h : ∀ c ∈ l, c.isDigit = true ∧ isPySpace c = false) :
    pyInt? l = some (digitsToNat l : ℤ) := by
  obtain ⟨c, r, rfl⟩ := List.exists_cons_of_ne_nil hne
  have hc := h c (List.mem_cons_self _ _)
  have h1 : decide ((c :: r).head? = some '+') = false := by
    simp only [List.head?_cons, decide_eq_false_iff_not, Option.some.injEq]
    intro hh
    rw [hh] at hc
    exact absurd hc.1 (by decide)
  have h2 : decide ((c :: r).head? = some '-') = false := by
    simp only [List.head?_cons, decide_eq_false_iff_not, Option.some.injEq]
    intro hh
    rw [hh] at hc
    exact absurd hc.1 (by decide)
  obtain ⟨htake, hdrop⟩ :=
    takeWhile_eq_self_of_forall (p := Char.isDigit) (l := c :: r)
      (fun c' hc' => (h c' hc').1)
  unfold pyInt?
  rw [pyStrip_eq_self (fun x hx => (h x hx).2)]
  simp only [h1, h2, Bool.or_self, Bool.false_eq_true, if_false]
  rw [htake, hdrop]
  simp

/-- `pyInt?` reads back `natChars`. -/
theorem pyInt?_natChars (n : Nat) : pyInt? (natChars n) = some (n : ℤ) := by
  have hne : natChars n ≠ [] := natCharsGo_ne_nil n n []
  rw [pyInt?_all_digits hne
    (fun c hc => ⟨(natChars_digits n c hc).1, (natChars_digits n c hc).2.2⟩)]
  rw [digitsToNat_natChars]

/-- A digit character is not Python whitespace. -/
theorem isDigit_not_space {x : Char} (h : x.isDigit = true) : isPySpace x = false := by
  cases hsp : isPySpace x
  · rfl
  · exfalso
    unfold isPySpace at hsp
    simp only [Bool.or_eq_true, decide_eq_true_eq] at hsp
    rcases hsp with ((((h1 | h1) | h1) | h1) | h1) | h1 <;>
      (subst h1; exact absurd h (by decide))

/-- `float()` succeeds on `digits.digits` and on `-digits.digits`. -/
theorem pyFloat?_shape (l1 l2 : List Char)
    (h1 : ∀ x ∈ l1, x.isDigit = true) (h2 : ∀ x ∈ l2, x.isDigit = true)
    (hne : l1 ≠ []) :
    (pyFloat? (l1 ++ '.' :: l2)).isSome = true ∧
    (pyFloat? ('-' :: (l1 ++ '.' :: l2))).isSome = true := by
  obtain ⟨c, r, rfl⟩ := List.exists_cons_of_ne_nil hne
  have hc := h1 c (List.mem_cons_self _ _)
  have hsp : ∀ x ∈ c :: (r ++ '.' :: l2), isPySpace x = false := by
    intro x hx
    rcases List.mem_cons.mp hx with hx | hx
    · subst hx
      exact isDigit_not_space hc
    · rcases List.mem_append.mp hx with hx | hx
      · exact isDigit_not_space (h1 x (List.mem_cons_of_mem _ hx))
      · rcases List.mem_cons.mp hx with hx | hx
        · subst hx
          decide
        · exact isDigit_not_space (h2 x hx)
  have hsp2 : ∀ x ∈ '-' :: c :: (r ++ '.' :: l2), isPySpace x = false := by
    intro x hx
    rcases List.mem_cons.mp hx with hx | hx
    · subst hx
      decide
    · exact hsp x hx
  have hplusF : ¬ (c :: (r ++ '.' :: l2)).head? = some '+' := by
    simp only [List.head?_cons, Option.some.injEq]
    intro hh
    rw [hh] at hc
    exact absurd hc (by decide)
  have hminusF : ¬ (c :: (r ++ '.' :: l2)).head? = some '-' := by
    simp only [List.head?_cons, Option.some.injEq]
    intro hh
    rw [hh] at hc
    exact absurd hc (by decide)
  obtain ⟨htk, hdr⟩ := takeWhile_append_sep (c :: r) '.' l2 h1 (by decide)
  rw [List.cons_append] at htk hdr
  obtain ⟨htk2, hdr2⟩ := takeWhile_eq_self_of_forall (p := Char.isDigit) h2
  have hcore : (pyFloatCore false (c :: (r ++ '.' :: l2))).isSome = true := by
    unfold pyFloatCore
    rw [htk, hdr]
    unfold pyFloatFrac
    rw [if_pos (by simp)]
    simp only [List.tail_cons]
    rw [htk2, hdr2]
    unfold pyFloatFin
    rw [if_neg (by simp)]
    rw [if_pos (by simp)]
    rfl
  have hcoreT : (pyFloatCore true (c :: (r ++ '.' :: l2))).isSome = true := by
    unfold pyFloatCore
    rw [htk, hdr]
    unfold pyFloatFrac
    rw [if_pos (by simp)]
    simp only [List.tail_cons]
    rw [htk2, hdr2]
    unfold pyFloatFin
    rw [if_neg (by simp)]
    rw [if_pos (by simp)]
    rfl
  have hcp : c ≠ '+' := fun hh => absurd (hh ▸ hc) (by decide)
  have hcm : c ≠ '-' := fun hh => absurd (hh ▸ hc) (by decide)
  constructor
  · rw [List.cons_append]
    unfold pyFloat?
    rw [pyStrip_eq_self hsp]
    rw [if_neg (by simp [List.head?_cons, hcp, hcm])]
    exact hcore
  · rw [List.cons_append]
    unfold pyFloat?
    rw [pyStrip_eq_self hsp2]
    rw [if_pos (by simp)]
    simp only [List.head?_cons, List.tail_cons, Option.some.injEq]
    simp only [decide_True]
    exact hcoreT

/-- Characters of `ratChars`: never whitespace, never a bar. -/
theorem ratChars_props (q : ℚ) :
    ∀ c ∈ ratChars q, isPySpace c = false ∧ c ≠ '|' := by
  intro c hc
  unfold ratChars at hc
  rcases List.mem_append.mp hc with hc | hc
  · rcases List.mem_append.mp hc with hc | hc
    · split at hc
      · simp only [List.mem_singleton] at hc
        subst hc
        exact ⟨by decide, by decide⟩
      · simp at hc
    · have h := natChars_digits _ c hc
      exact ⟨h.2.2, h.2.1⟩
  · rcases List.mem_cons.mp hc with hc | hc
    · subst hc
      exact ⟨by decide, by decide⟩
    · have h := natChars_digits _ c hc
      exact ⟨h.2.2, h.2.1⟩

/-- `float()` succeeds on any `ratChars` rendering. -/
theorem pyFloat?_ratChars_isSome (q : ℚ) : (pyFloat? (ratChars q)).isSome = true := by
  have h1 : ∀ x ∈ natChars (q.num.natAbs / q.den), x.isDigit = true :=
    fun x hx => (natChars_digits _ x hx).1
  have h2 : ∀ x ∈ natChars (q.num.natAbs % q.den * 1000000 / q.den), x.isDigit = true :=
    fun x hx => (natChars_digits _ x hx).1
  have hne : natChars (q.num.natAbs / q.den) ≠ [] := natCharsGo_ne_nil _ _ []
  obtain ⟨hA, hB⟩ := pyFloat?_shape _ _ h1 h2 hne
  unfold ratChars
  split
  · rw [show ['-'] ++ natChars (q.num.natAbs / q.den) ++
        '.' :: natChars (q.num.natAbs % q.den * 1000000 / q.den) =
        '-' :: (natChars (q.num.natAbs / q.den) ++
          '.' :: natChars (q.num.natAbs % q.den * 1000000 / q.den)) by simp]
    exact hB
  · rw [List.nil_append]
    exact hA

/-- `findSep3` at the first separator after bar-free text. -/
theorem findSep3_append : ∀ (xs ys : List Char), '|' ∉ xs →
    findSep3 (xs ++ '|' :: '|' :: '|' :: ys) = (xs, some ys) := by
  intro xs
  induction xs with
  | nil =>
      intro ys _
      simp [findSep3]
  | cons c xs ih =>
      intro ys hbar
      have hc : ¬ c = '|' := fun h => hbar (h ▸ List.mem_cons_self c xs)
      have hxs : '|' ∉ xs := fun h => hbar (List.mem_cons_of_mem c h)
      rw [List.cons_append]
      unfold findSep3
      rw [if_neg hc, ih ys hxs]

/-- `findSep3` on bar-free text finds nothing. -/
theorem findSep3_nobar : ∀ (xs : List Char), '|' ∉ xs →
    findSep3 xs = (xs, none) := by
  intro xs
  induction xs with
  | nil => intro _
           rfl
  | cons c xs ih =>
      intro hbar
      have hc : ¬ c = '|' := fun h => hbar (h ▸ List.mem_cons_self c xs)
      have hxs : '|' ∉ xs := fun h => hbar (List.mem_cons_of_mem c h)
      unfold findSep3
      rw [if_neg hc, ih hxs]

/-- The `'match'` undo payload decodes back to the ledger id and fitid it
was built from (for a fitid without `'|'`); the amount parses to some
value. -/
theorem decodeMatchPayload_matchPayload (lid : Nat) (fitid : String) (amt : ℚ)
    (h : '|' ∉ fitid.data) :
    ∃ v, decodeMatchPayload (matchPayload lid fitid amt) =
      some ((lid : ℤ), fitid.data, v) := by
  obtain ⟨v, hv⟩ := Option.isSome_iff_exists.mp (pyFloat?_ratChars_isSome amt)
  have hbar1 : '|' ∉ natChars lid := fun hx => (natChars_digits lid _ hx).2.1 rfl
  have hbar3 : '|' ∉ ratChars amt := fun hx => (ratChars_props amt _ hx).2 rfl
  have h1 := findSep3_append (natChars lid)
    (fitid.data ++ '|' :: '|' :: '|' :: ratChars amt) hbar1
  have h2 := findSep3_append fitid.data (ratChars amt) h
  have h3 := findSep3_nobar (ratChars amt) hbar3
  refine ⟨v, ?_⟩
  unfold decodeMatchPayload matchPayload splitPayload3
  simp only [h1, h2, h3, Option.some_bind, Option.bind_eq_bind]
  rw [pyInt?_natChars, hv]
  rfl

/-- Equation for the max scan step on an empty accumulator. -/
theorem maxStep_none (r : UndoRec) : maxStep none r = some r := rfl

/-- Equation for the max scan step on a running maximum. -/
theorem maxStep_some (m r : UndoRec) :
    maxStep (some m) r = if r.id > m.id then some r else some m := rfl

/-- The running max of undo records is stable once it dominates. -/
theorem maxUndo_keep (r : UndoRec) :
    ∀ l : List UndoRec, (∀ x ∈ l, x.id ≤ r.id) →
      l.foldl maxStep (some r) = some r := by
  intro l
  induction l with
  | nil => intro _
           rfl
  | cons a l ih =>
      intro h
      rw [List.foldl_cons]
      have ha : ¬ a.id > r.id := by
        have := h a (List.mem_cons_self _ _)
        omega
      rw [maxStep_some, if_neg ha]
      exact ih fun x hx => h x (List.mem_cons_of_mem _ hx)

/-- Scanning a list whose strict maximum is `r` yields `r`. -/
theorem maxUndo_run :
    ∀ (l : List UndoRec) (acc : Option UndoRec) (r : UndoRec),
      r ∈ l → (∀ x ∈ l, x ≠ r → x.id < r.id) →
      (acc = none ∨ ∃ m, acc = some m ∧ m.id < r.id) →
      l.foldl maxStep acc = some r := by
  intro l
  induction l with
  | nil => intro acc r hr
           simp at hr
  | cons a l ih =>
      intro acc r hr hmax hacc
      rw [List.foldl_cons]
      by_cases ha : a = r
      · subst ha
        have hstep : maxStep acc a = some a := by
          rcases hacc with hacc | ⟨m, hacc, hm⟩
          · rw [hacc, maxStep_none]
          · rw [hacc, maxStep_some, if_pos (by omega)]
        rw [hstep]
        refine maxUndo_keep a l ?_
        intro x hx
        by_cases hxa : x = a
        · rw [hxa]
        · exact le_of_lt (hmax x (List.mem_cons_of_mem _ hx) hxa)
      · have hr' : r ∈ l := by
          rcases List.mem_cons.mp hr with h | h
          · exact absurd h.symm ha
          · exact h
        have haid : a.id < r.id := hmax a (List.mem_cons_self _ _) ha
        refine ih _ r hr' (fun x hx hxr => hmax x (List.mem_cons_of_mem _ hx) hxr) ?_
        rcases hacc with hacc | ⟨m, hacc, hm⟩
        · rw [hacc, maxStep_none]
          exact Or.inr ⟨a, rfl, haid⟩
        · rw [hacc, maxStep_some]
          split
          · exact Or.inr ⟨a, rfl, haid⟩
          · exact Or.inr ⟨m, rfl, hm⟩

/-- `ORDER BY id DESC LIMIT 1` returns the strict maximum. -/
theorem maxUndo?_strict {l : List UndoRec} {r : UndoRec} (h1 : r ∈ l)
    (h2 : ∀ x ∈ l, x ≠ r → x.id < r.id) : maxUndo? l = some r :=
  maxUndo_run l none r h1 h2 (Or.inl rfl)

/-- C10: `pop_undo` returns and deletes the undo record with the highest
id; when that record's action is not `'match'`, `undo_last_match` still
consumes it — the record is gone from the stack for good — while every
other part of the database is left unchanged. -/
theorem undo_stack_pop_semantics (st : DbState) (r : UndoRec)
    (h1 : r ∈ st.bank_undo)
    (h2 : ∀ x ∈ st.bank_undo, x ≠ r → x.id < r.id) :
    pop_undo st =
      (some (r.action, r.payload),
       { st with bank_undo := st.bank_undo.filter fun x => x.id ≠ r.id }) ∧
    (r.action ≠ "match" →
      undo_last_match st =
        { st with bank_undo := st.bank_undo.filter fun x => x.id ≠ r.id }) := by
  have hmax := maxUndo?_strict h1 h2
  have hpop : pop_undo st =
      (some (r.action, r.payload),
       { st with bank_undo := st.bank_undo.filter fun x => x.id ≠ r.id }) := by
    unfold pop_undo
    rw [hmax]
  refine ⟨hpop, fun hne => ?_⟩
  unfold undo_last_match
  rw [hpop]
  simp only
  rw [if_neg hne]

/-- C10 witness: with `insert_cashbook` on top of the stack,
`undo_last_match` deletes that record and reverses nothing. -/
theorem undo_stack_pop_semantics_witness :
    pop_undo (⟨[], [], [], [⟨1, "insert_cashbook", "5"⟩, ⟨2, "edit_cashbook", "x"⟩],
        1, 1, 3⟩ : DbState) =
      (some ("edit_cashbook", "x"),
       (⟨[], [], [], [⟨1, "insert_cashbook", "5"⟩], 1, 1, 3⟩ : DbState)) ∧
    undo_last_match (⟨[], [], [], [⟨1, "insert_cashbook", "5"⟩,
        ⟨2, "edit_cashbook", "x"⟩], 1, 1, 3⟩ : DbState) =
      (⟨[], [], [], [⟨1, "insert_cashbook", "5"⟩], 1, 1, 3⟩ : DbState) := by
  have h := undo_stack_pop_semantics
    (⟨[], [], [], [⟨1, "insert_cashbook", "5"⟩, ⟨2, "edit_cashbook", "x"⟩],
      1, 1, 3⟩ : DbState)
    ⟨2, "edit_cashbook", "x"⟩ (by decide) (by decide)
  refine ⟨?_, ?_⟩
  · rw [h.1]
    decide
  · rw [h.2 (by decide)]
    decide

/-- C4 counterexample: a ledger entry that was already reconciled before
the match does not get its flag restored by match-then-undo — the flag
ends up `false`, not its pre-match value `true`. -/
theorem undo_does_not_restore_prematch_flag :
    (∃ e ∈ (on_reconcile_selected
        (addCashBookEntry initState ("2025-01-10") ("1") (some "ABC") ("r")
          (some 150) (some 0)) [1]).cash_book,
      e.id = 1 ∧ e.reconciled = true) ∧
    ∀ e ∈ (undo_last_match
        (match_selected_statement_lines
          (on_reconcile_selected
            (addCashBookEntry initState ("2025-01-10") ("1") (some "ABC") ("r")
              (some 150) (some 0)) [1])
          ("F1") ("2025-01-10") ("ABC") 150 ("2025-01-10") ("ABC"))).cash_book,
      e.id = 1 → e.reconciled = false := by
  exact ⟨by decide, by decide⟩

/-- C4 (amended): for an entry that was unreconciled before the match,
matching a statement line to it and then undoing restores the
`reconciled` flag to its pre-match value and deletes every statement
line matched to that entry, so the match record is no longer queryable.
(The undo always writes `false`, which coincides with the pre-match value
exactly when the entry was unreconciled before.) -/
theorem match_undo_roundtrip (st : DbState) (fitid tx_date desc : String)
    (amt : ℚ) (rdate narr : String) (e : CashBookEntry)
    (hfind : findCbByDateNarr st rdate narr = some e)
    (hpre : e.reconciled = false)
    (hbar : '|' ∉ fitid.data)
    (hwf : ∀ r ∈ st.bank_undo, r.id < st.nextUndoId) :
    (∀ e' ∈ (undo_last_match
        (match_selected_statement_lines st fitid tx_date desc amt rdate
          narr)).cash_book,
      e'.id = e.id → e'.reconciled = e.reconciled) ∧
    (∀ l ∈ (undo_last_match
        (match_selected_statement_lines st fitid tx_date desc amt rdate
          narr)).bank_statement_lines,
      l.matched_entry_id ≠ some e.id) := by
  obtain ⟨v, hv⟩ := decodeMatchPayload_matchPayload e.id fitid amt hbar
  have hmax : maxUndo? (st.bank_undo ++
      [{ id := st.nextUndoId, action := "match",
         payload := matchPayload e.id fitid amt }]) =
      some { id := st.nextUndoId, action := "match",
             payload := matchPayload e.id fitid amt } := by
    refine maxUndo?_strict (List.mem_append_right _ (List.mem_singleton.mpr rfl)) ?_
    intro x hx hxr
    rcases List.mem_append.mp hx with hx | hx
    · exact hwf x hx
    · exact absurd (List.mem_singleton.mp hx) hxr
  have hstate : undo_last_match
      (match_selected_statement_lines st fitid tx_date desc amt rdate narr) =
      { st with
        bank_statement_lines := (st.bank_statement_lines ++
            ([⟨st.nextStmtId, fitid, tx_date, some desc, some amt, some e.id,
              true⟩] : List StmtLine)).filter fun l =>
          !((l.matched_entry_id.map fun n => (n : ℤ)) == some (e.id : ℤ))
        cash_book := (setReconciled true e.id st.cash_book).map fun x =>
          if (x.id : ℤ) = (e.id : ℤ) then
            ({ x with reconciled := false } : CashBookEntry)
          else x
        bank_undo := (st.bank_undo ++
            [({ id := st.nextUndoId, action := "match",
                payload := matchPayload e.id fitid amt } : UndoRec)]).filter fun x =>
          x.id ≠ st.nextUndoId
        nextStmtId := st.nextStmtId + 1
        nextUndoId := st.nextUndoId + 1 } := by
    unfold match_selected_statement_lines
    rw [hfind]
    unfold undo_last_match pop_undo push_undo
    simp only
    rw [hmax]
    simp only
    rw [if_pos trivial, hv]
  rw [hstate]
  constructor
  · intro e' he' hid
    simp only [List.mem_map] at he'
    obtain ⟨x, _, rfl⟩ := he'
    by_cases hxe : (x.id : ℤ) = (e.id : ℤ)
    · rw [if_pos hxe] at hid ⊢
      rw [hpre]
    · rw [if_neg hxe] at hid ⊢
      exact absurd (by exact_mod_cast hid) hxe
  · intro l hl
    rw [List.mem_filter] at hl
    obtain ⟨_, hkeep⟩ := hl
    intro hcontra
    rw [hcontra] at hkeep
    simp at hkeep

/-- C4 witness: match an unreconciled entry, undo, and observe the flag
back at `false` and the statement line gone. -/
theorem match_undo_roundtrip_witness :
    (∀ e' ∈ (undo_last_match
        (match_selected_statement_lines
          (addCashBookEntry initState ("2025-01-10") ("1") (some "ABC") ("r")
            (some 150) (some 0))
          ("F1") ("2025-01-10") ("ABC") 150 ("2025-01-10") ("ABC"))).cash_book,
      e'.id = 1 → e'.reconciled = false) ∧
    ∀ l ∈ (undo_last_match
        (match_selected_statement_lines
          (addCashBookEntry initState ("2025-01-10") ("1") (some "ABC") ("r")
            (some 150) (some 0))
          ("F1") ("2025-01-10") ("ABC") 150 ("2025-01-10") ("ABC"))).bank_statement_lines,
      l.matched_entry_id ≠ some 1 := by
  have h := match_undo_roundtrip
    (addCashBookEntry initState ("2025-01-10") ("1") (some "ABC") ("r")
      (some 150) (some 0))
    ("F1") ("2025-01-10") ("ABC") 150 ("2025-01-10") ("ABC")
    ⟨1, "2025-01-10", "1", some "ABC", "r", some 150, some 0, false⟩
    (by decide) (by decide) (by decide) (by decide)
  exact h

/-- C1 witness: a statement line of `150` on 2025-01-10 matches a ledger
entry of debit `150` dated two days later with identical narration, at
similarity `1 > 0.4`. -/
theorem auto_match_spec_witness :
    ∃ s ∈ ([⟨1, "F", "2025-01-10", some "ab", some 150, none, false⟩] :
        List StmtLine),
      1 = s.id ∧
      ∃ c ∈ ([⟨2, "2025-01-12", "1", some "ab", "r", some 150, some 0, false⟩] :
          List CashBookEntry),
        2 = c.id ∧
        |cbNet c - s.amount.getD 0| ≤ 1 / 100 ∧
        dateDiffDays s.tx_date c.date ≤ 3 ∧
        dateDiffDays s.tx_date c.date ≠ 4 ∧
        (1 : ℚ) = simSC s c ∧ (2 / 5 : ℚ) < 1 ∧
        ∀ c' ∈ ([⟨2, "2025-01-12", "1", some "ab", "r", some 150, some 0, false⟩] :
            List CashBookEntry),
          eligible s c' = true → simSC s c' ≤ 1 :=
  auto_match_spec _ _ 1 2 1 (by decide)

/-- C8: a parser-level exception reaches the UI as a single error string
— the exception message with the traceback appended — and no
transactions are emitted (the two signals are mutually exclusive, so a
batch either fully fails or fully emits); a PDF yielding no text raises
the `No text extracted` error rather than succeeding emptily. -/
theorem worker_error_propagation :
    (∀ e tb, workerRun (Except.error e) tb =
      WorkerOut.errorOut (e ++ "\n\n" ++ tb)) ∧
    (∀ ts tb, workerRun (Except.ok ts) tb = WorkerOut.finishedOut ts) ∧
    (∀ e tb ts, workerRun (Except.error e) tb ≠ WorkerOut.finishedOut ts) ∧
    (∀ t : Ymd, parse_pdf t "" =
      Except.error "No text extracted from PDF (missing fitz/pdfplumber?)") := by
  refine ⟨fun e tb => rfl, fun ts tb => rfl, ?_, fun t => rfl⟩
  intro e tb ts h
  exact WorkerOut.noConfusion h

/-- Every transaction of the PDF grouping loop is classified by the sign
of its amount. -/
theorem pdfLoop_classification (t : Ymd) :
    ∀ fuel lines, ∀ txn ∈ pdfLoop t fuel lines,
      txn.ttype = if txn.amount > 0 then "Income" else "Expense" := by
  intro fuel
  induction fuel with
  | zero =>
      intro lines txn h
      simp [pdfLoop] at h
  | succ fuel ih =>
      intro lines txn h
      cases lines with
      | nil => simp [pdfLoop] at h
      | cons line rest =>
          unfold pdfLoop at h
          cases hd : datePatSearch line 0 with
          | none =>
              rw [hd] at h
              exact ih rest txn h
          | some p =>
              obtain ⟨start, len⟩ := p
              rw [hd] at h
              rcases List.mem_cons.mp h with h | h
              · subst h
                rfl
              · exact ih _ txn h

/-- C9: every transaction emitted by the CSV, PDF, or OFX parser is
typed `'Income'` exactly when its amount is strictly positive; any
amount `≤ 0` — including amounts coerced to `0` because they were
missing or unparsable — yields `'Expense'`. -/
theorem sign_classification (t : Ymd) :
    (∀ rows, ∀ txn ∈ parse_csv t rows,
      txn.ttype = if txn.amount > 0 then "Income" else "Expense") ∧
    (∀ text txns, parse_pdf t text = Except.ok txns → ∀ txn ∈ txns,
      txn.ttype = if txn.amount > 0 then "Income" else "Expense") ∧
    (∀ content, ∀ txn ∈ parse_ofx t content,
      txn.ttype = if txn.amount > 0 then "Income" else "Expense") := by
  refine ⟨?_, ?_, ?_⟩
  · intro rows txn h
    obtain ⟨row, _, rfl⟩ := List.mem_map.mp h
    rfl
  · intro text txns hok txn h
    unfold parse_pdf at hok
    split at hok
    · exact absurd hok (by simp)
    · rw [Except.ok.injEq] at hok
      subst hok
      exact pdfLoop_classification t _ _ txn h
  · intro content txn h
    obtain ⟨blk, _, hblk⟩ := List.mem_filterMap.mp h
    unfold ofxBlockTxn at hblk
    split at hblk
    · exact absurd hblk (by simp)
    · rw [Option.some.injEq] at hblk
      subst hblk
      rfl

/-- C9 witness: the parsed CSV row with amount `5` is typed by its sign. -/
theorem sign_classification_witness :
    (⟨"2025-01-10", "Coffee", 5, "Income"⟩ : Txn).ttype =
      if (⟨"2025-01-10", "Coffee", 5, "Income"⟩ : Txn).amount > 0 then "Income"
      else "Expense" :=
  (sign_classification ⟨2025, 6, 15⟩).1
    [[("Date", "2025-01-10"), ("Description", "Coffee"), ("Amount", "5")]]
    ⟨"2025-01-10", "Coffee", 5, "Income"⟩ (by decide)

/-- C7 witness: a row with the same date and a case-insensitively equal
description is flagged as a duplicate. -/
theorem is_duplicate_transaction_spec_witness :
    is_duplicate_transaction
        [⟨"2025-01-10", "Coffee Shop", 5, "Expense"⟩] ("2025-01-10")
        ("COFFEE shop") = true :=
  (is_duplicate_transaction_spec.1 _ _ _).mpr
    ⟨⟨"2025-01-10", "Coffee Shop", 5, "Expense"⟩, by decide, by decide, by decide⟩

end NexLedger
